import Mathlib

/-!
# A verification development for `log.go` (package `log` of 01-edu/log)

The package has two operations, `JSON(v interface{})` and `Recover()`, that write JSON Lines
records on standard output under the mutex `Output`.

The embedding is shallow: every Go statement of the two functions becomes one step of a
state-passing Lean function over `World` (the mutex, what standard output has received, and
the order in which the primitives ran).  The library calls the source makes
(`json.Marshal`, `json.Unmarshal`, `json.Encoder.Encode`, `runtime.Caller`, `strconv.Itoa`,
`debug.Stack`, `recover`, `os.Exit`, `sync.Mutex`) are modelled next to it.

The model:
* one goroutine runs: `Lock` on a held mutex never returns;
* a Go string is a sequence of bytes; `encoding/json` writes it as a JSON string in which every
  byte that is not part of a valid UTF-8 encoding has become U+FFFD;
* a JSON document is given by its value: a number is a rational, a string is a text;
* a number decoded into an `interface{}` is a `float64`: the nearest one, or an infinity when
  the number is out of range, which `Encode` then refuses;
* a Go value handed to `JSON` or recovered by `Recover` is described by what the two functions
  observe of it: the case of the type switch it falls in, the bytes its method `Error()`
  returns, and the result of `json.Marshal` on it, the same each time it is encoded.
-/

namespace Log

/-! ## Go strings and UTF-8 -/

/-- A Go `string` (or `[]byte`): a sequence of bytes. -/
abbrev Bytes := List UInt8

/-- The UTF-8 encoding of one code point. -/
def utf8EncodeChar (c : Char) : Bytes :=
  let n := c.toNat
  if n < 0x80 then [UInt8.ofNat n]
  else if n < 0x800 then [UInt8.ofNat (0xC0 + n / 64), UInt8.ofNat (0x80 + n % 64)]
  else if n < 0x10000 then
    [UInt8.ofNat (0xE0 + n / 4096), UInt8.ofNat (0x80 + n / 64 % 64), UInt8.ofNat (0x80 + n % 64)]
  else
    [UInt8.ofNat (0xF0 + n / 262144), UInt8.ofNat (0x80 + n / 4096 % 64),
      UInt8.ofNat (0x80 + n / 64 % 64), UInt8.ofNat (0x80 + n % 64)]

/-- The UTF-8 encoding of a list of code points. -/
def utf8Chars : List Char → Bytes
  | [] => []
  | c :: cs => utf8EncodeChar c ++ utf8Chars cs

/-- The Go string that holds the text `s`: its UTF-8 encoding. -/
def utf8 (s : String) : Bytes := utf8Chars s.data

/-- The code point U+FFFD, `utf8.RuneError`. -/
def RuneError : Char := Char.ofNat 0xFFFD

/-- A continuation byte, `0x80` to `0xBF`. -/
def continuation (x : Nat) : Bool := decide (0x80 ≤ x) && decide (x ≤ 0xBF)

/-- The call `utf8.DecodeRune` on the bytes `b0 :: rest`: the code point and the number of bytes
it takes, or `(RuneError, 1)` when `b0` does not start a valid encoding. -/
def DecodeRune (b0 : UInt8) (rest : Bytes) : Char × Nat :=
  let x0 := b0.toNat
  if x0 < 0x80 then (Char.ofNat x0, 1)
  else if x0 < 0xC2 then (RuneError, 1)
  else if x0 < 0xE0 then
    match rest with
    | b1 :: _ =>
      if continuation b1.toNat then (Char.ofNat ((x0 - 0xC0) * 64 + (b1.toNat - 0x80)), 2)
      else (RuneError, 1)
    | _ => (RuneError, 1)
  else if x0 < 0xF0 then
    match rest with
    | b1 :: b2 :: _ =>
      if (if x0 = 0xE0 then 0xA0 else 0x80) ≤ b1.toNat ∧
          b1.toNat ≤ (if x0 = 0xED then 0x9F else 0xBF) ∧ continuation b2.toNat = true then
        (Char.ofNat ((x0 - 0xE0) * 4096 + (b1.toNat - 0x80) * 64 + (b2.toNat - 0x80)), 3)
      else (RuneError, 1)
    | _ => (RuneError, 1)
  else if x0 < 0xF5 then
    match rest with
    | b1 :: b2 :: b3 :: _ =>
      if (if x0 = 0xF0 then 0x90 else 0x80) ≤ b1.toNat ∧
          b1.toNat ≤ (if x0 = 0xF4 then 0x8F else 0xBF) ∧ continuation b2.toNat = true ∧
          continuation b3.toNat = true then
        (Char.ofNat ((x0 - 0xF0) * 262144 + (b1.toNat - 0x80) * 4096 + (b2.toNat - 0x80) * 64
          + (b3.toNat - 0x80)), 4)
      else (RuneError, 1)
    | _ => (RuneError, 1)
  else (RuneError, 1)

/-- The code points `encoding/json` reads from a Go string, rune by rune with `DecodeRune`;
`skip` counts the bytes still to pass of the rune read last. -/
def decodeRunes : Nat → Bytes → List Char
  | _, [] => []
  | skip + 1, _ :: rest => decodeRunes skip rest
  | 0, b0 :: rest => (DecodeRune b0 rest).1 :: decodeRunes ((DecodeRune b0 rest).2 - 1) rest

/-- The JSON string `encoding/json` writes for the Go string `s`: the text of `s`, with U+FFFD
in the place of every byte that is not part of a valid UTF-8 encoding. -/
def jsonString (s : Bytes) : String := ⟨decodeRunes 0 s⟩

/-! ## JSON documents -/

/-- The JSON documents, by value. An object lists its fields in the order in which they are
printed. -/
inductive Json where
  | null
  | bool (b : Bool)
  | num (x : ℚ)
  | str (s : String)
  | arr (items : List Json)
  | obj (fields : List (String × Json))

/-- Whether a document is a JSON object. -/
def Json.isObject : Json → Bool
  | .obj _ => true
  | _ => false

/-! ## Go maps with string keys

`encoding/json` prints the entries of a map sorted by key, so a map is kept as the list of its
entries in that order. -/

/-- Lexicographic comparison of two texts by code point (the byte order of their UTF-8 form). -/
def ltChars : List Char → List Char → Bool
  | _, [] => false
  | [], _ :: _ => true
  | a :: as, b :: bs => decide (a.toNat < b.toNat) || (decide (a.toNat = b.toNat) && ltChars as bs)

/-- The key order `encoding/json` uses when it prints a map. -/
def keyLess (a b : String) : Bool := ltChars a.data b.data

/-- The assignment `m[k] = v`. -/
def setKey {α : Type} : List (String × α) → String → α → List (String × α)
  | [], k, v => [(k, v)]
  | (k0, v0) :: rest, k, v =>
    if keyLess k k0 then (k, v) :: (k0, v0) :: rest
    else if k = k0 then (k, v) :: rest
    else (k0, v0) :: setKey rest k v

/-- The read `m[k]`. -/
def getKey {α : Type} : List (String × α) → String → Option α
  | [], _ => none
  | (k0, v0) :: rest, k => if k0 = k then some v0 else getKey rest k

/-- The keys of a map, in order. -/
def keys {α : Type} (m : List (String × α)) : List String := m.map Prod.fst

/-! ## Numbers through `float64`

`json.Unmarshal` stores a JSON number held by an `interface{}` as a `float64`
(`strconv.ParseFloat`), and `Encode` prints a `float64` with the fewest digits that read back
as the same `float64` (`strconv.AppendFloat(b, f, 'f' or 'e', -1, 64)`). -/

/-- Binary length of a natural number, with fuel. -/
def bitLenAux : Nat → Nat → Nat → Nat
  | 0, _, acc => acc
  | fuel + 1, n, acc => if n = 0 then acc else bitLenAux fuel (n / 2) (acc + 1)

/-- Binary length of a natural number: `bitLen 0 = 0`, `bitLen 5 = 3`. -/
def bitLen (n : Nat) : Nat := bitLenAux n n 0

/-- The integer part of the binary logarithm of `P / Q`, for positive `P` and `Q`. -/
def floorLog2 (P Q : Nat) : Int :=
  let t : Int := (bitLen P : Int) - (bitLen Q : Int)
  let ge : Bool :=
    if 0 ≤ t then decide (Q * 2 ^ t.toNat ≤ P) else decide (Q ≤ P * 2 ^ (-t).toNat)
  if ge then t else t - 1

/-- The `float64` nearest to `P / Q` (ties to the even significand), for positive `P` and `Q`:
the pair `(q, e)` stands for `q * 2^e`, with `q ≤ 2^53` and `e ≥ -1074`. The value may be
`2^1024` or more, which `ParseFloat` reports as out of range. -/
def roundFloat64 (P Q : Nat) : Nat × Int :=
  let e : Int := max (floorLog2 P Q - 52) (-1074)
  let N := if 0 ≤ e then P else P * 2 ^ (-e).toNat
  let D := if 0 ≤ e then Q * 2 ^ e.toNat else Q
  let q := N / D
  let r := N % D
  if D < 2 * r ∨ (2 * r = D ∧ q % 2 = 1) then (q + 1, e) else (q, e)

/-- Search, from `10^j` downwards, of the multiple of the largest power of ten that reads back
as the `float64` `A / B`. All quantities are in units of `1 / (4 * B)`: `gL` and `gU` are the
distances to the midpoints with the neighbouring `float64` values, which belong to `A / B`
when its significand is even (`incl`). The result `(n, d)` stands for `n / d`. -/
def shortestSearch (A B gL gU : Nat) (incl : Bool) : Nat → Int → Nat × Nat
  | 0, _ => (A, B)
  | fuel + 1, j =>
    let W := if 0 ≤ j then 10 ^ j.toNat else 1
    let T := if 0 ≤ j then 1 else 10 ^ (-j).toNat
    let d := (A * T) / (B * W)
    let down := d * W * 4 * B
    let up := (d + 1) * W * 4 * B
    let mid := 4 * A * T
    let lo := (4 * A - gL) * T
    let hi := (4 * A + gU) * T
    let fits : Nat → Bool := fun c =>
      if incl then decide (lo ≤ c) && decide (c ≤ hi) else decide (lo < c) && decide (c < hi)
    match fits down, fits up with
    | true, true =>
      if mid - down < up - mid ∨ (mid - down = up - mid ∧ d % 2 = 0) then (d * W, T)
      else ((d + 1) * W, T)
    | true, false => (d * W, T)
    | false, true => ((d + 1) * W, T)
    | false, false => shortestSearch A B gL gU incl fuel (j - 1)

/-- The number `strconv.AppendFloat(_, f, _, -1, 64)` prints for the positive `float64`
`f = q0 * 2^e0`: the decimal with the fewest significant digits that reads back as `f`, the
closest to `f` when there are several, the one with an even last digit when two are as close.
The result `(n, d)` stands for `n / d`. -/
def shortest (q0 : Nat) (e0 : Int) : Nat × Nat :=
  let q := if q0 = 2 ^ 53 then 2 ^ 52 else q0
  let e := if q0 = 2 ^ 53 then e0 + 1 else e0
  let A := if 0 ≤ e then q * 2 ^ e.toNat else q
  let B := if 0 ≤ e then 1 else 2 ^ (-e).toNat
  let U := if 0 ≤ e then 4 * 2 ^ e.toNat else 4
  let gU := U / 2
  let gL := if q = 2 ^ 52 ∧ -1074 < e then U / 4 else U / 2
  let j0 : Int := ((bitLen A : Int) - (bitLen B : Int) + 1) * 30103 / 100000 + 2
  shortestSearch A B gL gU (decide (q % 2 = 0)) 40 j0

/-- A JSON number after `Unmarshal` into an `interface{}` and `Encode`: the number printed for
the `float64` nearest to `x`, or `none` when `ParseFloat` reports `x` out of range and leaves an
infinity. -/
def float64Trip (x : ℚ) : Option ℚ :=
  let r := roundFloat64 x.num.natAbs x.den
  if r.1 = 0 then some 0
  else if 0 ≤ r.2 ∧ 1024 < bitLen r.1 + r.2.toNat then none
  else
    let s := shortest r.1 r.2
    if x.num < 0 then some (mkRat (-(s.1 : Int)) s.2) else some (mkRat (s.1 : Int) s.2)

/-! ## `json.Unmarshal` into `interface{}` and back -/

/-- The values `json.Unmarshal` stores in an `interface{}`: `nil`, a `bool`, a `float64`
(a finite one is given by the number printed for it), a `string`, a `[]interface{}` or a
`map[string]interface{}`. -/
inductive Generic where
  | null
  | bool (b : Bool)
  | float (printed : ℚ)
  | inf (negative : Bool)
  | str (s : String)
  | arr (items : List Generic)
  | obj (entries : List (String × Generic))

mutual
/-- The value `Unmarshal` stores for the document `j` in an `interface{}`, and whether an error
was recorded. A number out of the range of `float64` leaves an infinity and records an error;
decoding goes on. -/
def generic : Json → Generic × Bool
  | .null => (.null, false)
  | .bool b => (.bool b, false)
  | .num x =>
    match float64Trip x with
    | some y => (.float y, false)
    | none => (.inf (decide (x < 0)), true)
  | .str s => (.str s, false)
  | .arr items => let r := genericItems items; (.arr r.1, r.2)
  | .obj fields => let r := genericFields fields []; (.obj r.1, r.2)
/-- The items of an array, one by one. -/
def genericItems : List Json → List Generic × Bool
  | [] => ([], false)
  | x :: xs =>
    let a := generic x
    let r := genericItems xs
    (a.1 :: r.1, a.2 || r.2)
/-- The fields of an object, assigned to the map `acc` one by one. -/
def genericFields :
    List (String × Json) → List (String × Generic) → List (String × Generic) × Bool
  | [], acc => (acc, false)
  | (k, v) :: rest, acc =>
    let a := generic v
    let r := genericFields rest (setKey acc k a.1)
    (r.1, a.2 || r.2)
end

mutual
/-- Encoding of a value stored by `Unmarshal`; an infinity is an `UnsupportedValueError`. -/
def Generic.encode : Generic → Except String Json
  | .null => .ok .null
  | .bool b => .ok (.bool b)
  | .float x => .ok (.num x)
  | .inf negative =>
    .error (if negative then "json: unsupported value: -Inf" else "json: unsupported value: +Inf")
  | .str s => .ok (.str s)
  | .arr items =>
    match encodeItems items with
    | .error e => .error e
    | .ok js => .ok (.arr js)
  | .obj entries =>
    match encodeEntries entries with
    | .error e => .error e
    | .ok fs => .ok (.obj fs)
/-- Encoding of the items of a `[]interface{}`, in order. -/
def encodeItems : List Generic → Except String (List Json)
  | [] => .ok []
  | g :: gs =>
    match g.encode with
    | .error e => .error e
    | .ok j =>
      match encodeItems gs with
      | .error e => .error e
      | .ok js => .ok (j :: js)
/-- Encoding of the entries of a `map[string]interface{}`, in order. -/
def encodeEntries : List (String × Generic) → Except String (List (String × Json))
  | [] => .ok []
  | (k, g) :: rest =>
    match g.encode with
    | .error e => .error e
    | .ok j =>
      match encodeEntries rest with
      | .error e => .error e
      | .ok js => .ok ((k, j) :: js)
end

/-! ## Go values -/

/-- A value of type `interface{}`, as `JSON` and `Recover` observe it. -/
inductive Value where
  /-- The nil interface. -/
  | nil
  /-- A value of dynamic type `string`. -/
  | string (s : Bytes)
  /-- A value whose dynamic type implements `error`: the bytes `Error()` returns, and the
  result of `json.Marshal`. -/
  | error (message : Bytes) (marshalled : Except String Json)
  /-- Any other value, with the result of `json.Marshal`. -/
  | other (marshalled : Except String Json)

/-- The call `json.Marshal(v)`. -/
def Marshal : Value → Except String Json
  | .nil => .ok .null
  | .string s => .ok (.str (jsonString s))
  | .error _ m => m
  | .other m => m

/-- What an entry of `obj` (a `map[string]interface{}`) or a field of the structs of `Recover`
can hold. -/
inductive Any where
  /-- A Go string. -/
  | string (s : Bytes)
  /-- The value passed to `JSON`, or the recovered value. -/
  | item (v : Value)
  /-- A value stored by `json.Unmarshal`. -/
  | generic (g : Generic)

/-- Encoding of one held value. -/
def Any.marshal : Any → Except String Json
  | .string s => .ok (.str (jsonString s))
  | .item v => Marshal v
  | .generic g => g.encode

/-- The document of a held value, when its encoding succeeds. -/
def Any.doc (a : Any) : Json :=
  match a.marshal with
  | .ok j => j
  | .error _ => .null

/-- Encoding of the entries of a map or the fields of a struct, in order; the first failure
ends it. -/
def encodeFields : List (String × Any) → Except String (List (String × Json))
  | [] => .ok []
  | (k, a) :: rest =>
    match a.marshal with
    | .error e => .error e
    | .ok j =>
      match encodeFields rest with
      | .error e => .error e
      | .ok js => .ok ((k, j) :: js)

/-- Encoding of a `map[string]interface{}`; the nil map (`none`) is printed `null`. -/
def marshalMap : Option (List (String × Any)) → Except String Json
  | none => .ok .null
  | some m =>
    match encodeFields m with
    | .error e => .error e
    | .ok fs => .ok (.obj fs)

/-- Encoding of a struct with the given fields. -/
def marshalStruct (fields : List (String × Any)) : Except String Json :=
  match encodeFields fields with
  | .error e => .error e
  | .ok fs => .ok (.obj fs)

/-- Assignment of the fields of a JSON object to the entries of `obj`, one by one, and whether
an error was recorded. -/
def mergeFields : List (String × Any) → List (String × Json) → List (String × Any) × Bool
  | obj, [] => (obj, false)
  | obj, (k, v) :: rest =>
    let d := generic v
    let r := mergeFields (setKey obj k (.generic d.1)) rest
    (r.1, d.2 || r.2)

/-- The call `json.Unmarshal(b, &obj)` for `obj` of type `map[string]interface{}`: the new
value of `obj` (`none` is the nil map) and whether the returned error is non-nil.
`null` sets the map to nil without error; an object is merged into the existing entries; any
other document is a type error and leaves `obj` as it was. -/
def Unmarshal (b : Json) (obj : List (String × Any)) : Option (List (String × Any)) × Bool :=
  match b with
  | .null => (none, false)
  | .obj fields => let r := mergeFields obj fields; (some r.1, r.2)
  | _ => (some obj, true)

/-! ## The process -/

/-- One `Write` on `os.Stdout`. -/
inductive Chunk where
  /-- The text of `doc` followed by a newline, written in full. -/
  | line (doc : Json)
  /-- Only the first `n` bytes of that text; the write then failed. -/
  | cut (doc : Json) (n : Nat)

/-- The primitives, in the order in which they ran. -/
inductive Event where
  | lock
  | unlock
  | caller (skip : Nat)
  | write
  | exit (code : Nat)

/-- A `sync.Mutex`. -/
structure Mutex where
  /-- Whether the mutex is held. -/
  held : Bool

/-- The state the two functions act on. -/
structure World where
  /-- The mutex `Output` of the package. -/
  Output : Mutex
  /-- What standard output has received. -/
  stdout : List Chunk
  /-- The primitives that ran so far. -/
  events : List Event

/-- What the runtime answers during one call. -/
structure Env where
  /-- The call stack seen by `runtime.Caller`, a file and a line for each frame: frame 0 is the
  function that calls `runtime.Caller`, frame 1 its caller; a missing frame is reported with
  `ok = false`. -/
  frames : List (Bytes × Int)
  /-- The bytes `debug.Stack()` returns. -/
  stack : Bytes
  /-- The fate of a `Write` on `os.Stdout`: `none` when it succeeds, else the number of bytes
  written before it failed and the error. -/
  writeErr : Option (Nat × String)

/-- How a call ends. -/
inductive Outcome where
  | returned
  | panicked (err : String)
  | exited (code : Nat)
  /-- `Lock` on a held mutex does not return. -/
  | blocked
  /-- `Unlock` of a mutex that is not held is a fatal error. -/
  | fatal

/-- The call `Output.Lock()`; `none` when the mutex is held. -/
def lock (w : World) : Option World :=
  if w.Output.held then none
  else some { w with Output := { held := true }, events := w.events ++ [.lock] }

/-- The call `Output.Unlock()`; `none` when the mutex is not held. -/
def unlock (w : World) : Option World :=
  if w.Output.held then some { w with Output := { held := false }, events := w.events ++ [.unlock] }
  else none

/-- The call `runtime.Caller(skip)`. -/
def Caller (env : Env) (skip : Nat) (w : World) : World × Option (Bytes × Int) :=
  ({ w with events := w.events ++ [.caller skip] }, env.frames[skip]?)

/-- The call `strconv.Itoa(i)`: the decimal digits of `i`, after a minus sign when it is
negative. -/
def Itoa (i : Int) : Bytes := utf8 (toString i)

/-- The call `json.NewEncoder(os.Stdout).Encode(v)`, given the encoding of `v`: an encoding
error is returned before anything is written; otherwise the text and a newline go to standard
output in one `Write`. Returns the error, if any. -/
def Encode (env : Env) (encoded : Except String Json) (w : World) : World × Option String :=
  match encoded with
  | .error e => (w, some e)
  | .ok doc =>
    match env.writeErr with
    | none => ({ w with stdout := w.stdout ++ [.line doc], events := w.events ++ [.write] }, none)
    | some (n, e) =>
      ({ w with stdout := w.stdout ++ [.cut doc n], events := w.events ++ [.write] }, some e)

/-! ## `JSON` -/

/-- The type switch of `JSON` (lines 31 to 47): the entries of `obj` after it, or the error
`json.Marshal` returned, with which `JSON` panics. -/
def typeSwitch (v : Value) (obj : List (String × Any)) : Except String (Option (List (String × Any))) :=
  match v with
  | .nil => .ok (some obj)
  | .string item => .ok (some (setKey obj "Message" (.string item)))
  | .error message _ =>
    .ok (some (setKey (setKey obj "Message" (.string message)) "Error" (.item v)))
  | .other marshalled =>
    match marshalled with
    | .error err => .error err
    | .ok b =>
      match Unmarshal b obj with
      | (some obj1, true) => .ok (some (setKey obj1 "Item" (.item v)))
      | (none, true) => .error "assignment to entry in nil map"
      | (obj1, false) => .ok obj1

/-- Lines 27 to 30 of `JSON`: the empty map `obj`, with the entry `File` when
`runtime.Caller` answered `ok`. -/
def newObj (loc : Option (Bytes × Int)) : List (String × Any) :=
  let obj : List (String × Any) := []
  match loc with
  | some (file, line) => setKey obj "File" (.string (file ++ utf8 ":" ++ Itoa line))
  | none => obj

/-- The record `JSON` has built from `v` when it reaches line 48, or the error with which it
panics on line 41. -/
def record (env : Env) (v : Value) : Except String (Option (List (String × Any))) :=
  typeSwitch v (newObj env.frames[1]?)

/-- The serialization of the record built from `v`: the error of line 41 or of the encoding
on line 48, or the document to write. -/
def serialize (env : Env) (v : Value) : Except String Json :=
  match record env v with
  | .error err => .error err
  | .ok obj => marshalMap obj

/-- The body of `JSON` between `Output.Lock()` and the deferred `Output.Unlock()`. -/
def JSONBody (env : Env) (v : Value) (w : World) : World × Outcome :=
  let c := Caller env 1 w
  let obj := newObj c.2
  match typeSwitch v obj with
  | .error err => (c.1, .panicked err)
  | .ok obj =>
    match Encode env (marshalMap obj) c.1 with
    | (w1, some err) => (w1, .panicked err)
    | (w1, none) => (w1, .returned)

/-- The function `JSON(v interface{})`. -/
def JSON (env : Env) (v : Value) (w : World) : World × Outcome :=
  match lock w with
  | none => (w, .blocked)
  | some w1 =>
    let r := JSONBody env v w1
    match unlock r.1 with
    | none => (r.1, .fatal)
    | some w2 => (w2, r.2)

/-! ## `Recover` -/

/-- The call `os.Exit(code)`. -/
def Exit (code : Nat) (w : World) : World × Outcome :=
  ({ w with events := w.events ++ [.exit code] }, .exited code)

/-- The struct `Recover` encodes for the recovered value `r`. -/
def recoverStruct (env : Env) (r : Value) : List (String × Any) :=
  match r with
  | .error message _ =>
    [("Message", .string message), ("Error", .item r), ("Stack", .string env.stack)]
  | _ => [("Error", .item r), ("Stack", .string env.stack)]

/-- The function `Recover()`, given the value `r` that `recover()` returns (`Value.nil` when no
panic is in flight). The error `Encode` returns is dropped. -/
def Recover (env : Env) (r : Value) (w : World) : World × Outcome :=
  match r with
  | .nil => (w, .returned)
  | _ =>
    match lock w with
    | none => (w, .blocked)
    | some w1 =>
      let w2 := (Encode env (marshalStruct (recoverStruct env r)) w1).1
      match unlock w2 with
      | none => (w2, .fatal)
      | some w3 => Exit 1 w3

/-! ## Example inputs -/

/-- The environment of a call made from line 12 of `main.go`, with a working standard output. -/
def env0 : Env :=
  { frames := [(utf8 "log.go", 28), (utf8 "main.go", 12)],
    stack := utf8 "goroutine 1 [running]", writeErr := none }

/-- The environment of a call made from line 305 of `handler.go`. -/
def env1 : Env :=
  { frames := [(utf8 "log.go", 28), (utf8 "handler.go", 305)],
    stack := utf8 "goroutine 7 [running]", writeErr := none }

/-- The state of a process that has written nothing and holds no lock. -/
def world0 : World := { Output := { held := false }, stdout := [], events := [] }

/-- The slice `[]int(nil)`: it is not the nil interface, and `json.Marshal` gives `null`. -/
def nilSlice : Value := .other (.ok .null)

/-- The map `map[string]int(nil)`: `json.Marshal` gives `null`. -/
def nilMap : Value := .other (.ok .null)

/-- The value `struct{ N int64 }{9007199254740993}`, that is `2^53 + 1`. -/
def bigField : Value := .other (.ok (.obj [("N", .num 9007199254740993)]))

/-- The value `map[string]*big.Int{"n": x}` with `x` equal to `10^309`, which is out of the range
of `float64`: `json.Marshal` gives the object whose field `n` is that integer. -/
def hugeField : Value :=
  .other (.ok (.obj [("n", .num 1000000000000000000000000000000000000000000000000000000000000000000000000000000000000000000000000000000000000000000000000000000000000000000000000000000000000000000000000000000000000000000000000000000000000000000000000000000000000000000000000000000000000000000000000000000000000000000000000000000000000000000000)]))

/-- The value `make(chan int)`: `json.Marshal` fails on it. -/
def chanValue : Value := .other (.error "json: unsupported type: chan int")

/-- The Go string `"a\xffb"`: the byte `0xff` is not part of a valid UTF-8 encoding. -/
def badString : Bytes := [0x61, 0xff, 0x62]

/-- An error value whose `Error()` returns `"boom"` and that holds a channel, so that
`json.Marshal` fails on it. -/
def chanError : Value := .error (utf8 "boom") (.error "json: unsupported type: chan int")

/-- An error value whose `Error()` returns `"a\xffb"`, encoded as `{}` by `json.Marshal`. -/
def badMessageError : Value := .error badString (.ok (.obj []))

/-! ## Predicates used in the statements -/

/-- The keys of a map are strictly increasing in the printing order. -/
def SortedKeys {α : Type} (m : List (String × α)) : Prop :=
  (keys m).Pairwise (fun a b => keyLess a b = true)

/-- The scalar documents that decoding into an `interface{}` and encoding again leave as
they are: `null`, booleans, strings, and integers of magnitude below `2^53`. -/
def Json.exactScalar : Json → Bool
  | .null => true
  | .bool _ => true
  | .str _ => true
  | .num x => decide (x.den = 1) && decide (x.num.natAbs < 2 ^ 53)
  | .arr _ => false
  | .obj _ => false

/-- Every `write` of a run of events happens while the mutex is held; `held` says whether it
is held at the start of the run. -/
def writesHeld : Bool → List Event → Bool
  | _, [] => true
  | _, .lock :: es => writesHeld true es
  | _, .unlock :: es => writesHeld false es
  | held, .write :: es => held && writesHeld held es
  | held, .caller _ :: es => writesHeld held es
  | held, .exit _ :: es => writesHeld held es
/-! ## The key order -/

theorem ltChars_irrefl (a : List Char) : ltChars a a = false := by
  induction a with
  | nil => rfl
  | cons c cs ih => simp [ltChars, ih]

theorem ltChars_trans (a b c : List Char) (hab : ltChars a b = true) (hbc : ltChars b c = true) :
    ltChars a c = true := by
  induction a generalizing b c with
  | nil =>
    cases b with
    | nil => simp [ltChars] at hab
    | cons y ys =>
      cases c with
      | nil => simp [ltChars] at hbc
      | cons z zs => simp [ltChars]
  | cons x xs ih =>
    cases b with
    | nil => simp [ltChars] at hab
    | cons y ys =>
      cases c with
      | nil => simp [ltChars] at hbc
      | cons z zs =>
        simp only [ltChars, Bool.or_eq_true, Bool.and_eq_true, decide_eq_true_eq] at hab hbc ⊢
        rcases hab with h1 | ⟨h1, h2⟩
        · rcases hbc with h3 | ⟨h3, _⟩
          · left; omega
          · left; omega
        · rcases hbc with h3 | ⟨h3, h4⟩
          · left; omega
          · right; exact ⟨by omega, ih ys zs h2 h4⟩

theorem ltChars_total (a b : List Char) (hab : ltChars a b = false) (hne : a ≠ b) :
    ltChars b a = true := by
  induction a generalizing b with
  | nil =>
    cases b with
    | nil => exact absurd rfl hne
    | cons y ys => simp [ltChars] at hab
  | cons x xs ih =>
    cases b with
    | nil => simp [ltChars]
    | cons y ys =>
      simp only [ltChars, Bool.or_eq_false_iff, Bool.and_eq_false_iff, decide_eq_false_iff_not,
        Bool.or_eq_true, Bool.and_eq_true, decide_eq_true_eq] at hab ⊢
      obtain ⟨h1, h2⟩ := hab
      by_cases hxy : y.toNat < x.toNat
      · left; exact hxy
      · right
        have heq : x.toNat = y.toNat := by omega
        have hc : x = y := Char.ext (UInt32.ext heq)
        refine ⟨heq.symm, ih ys ?_ ?_⟩
        · rcases h2 with h2 | h2
          · exact absurd heq h2
          · exact h2
        · intro h
          exact hne (by rw [hc, h])

theorem keyLess_irrefl (a : String) : keyLess a a = false := ltChars_irrefl a.data

theorem keyLess_trans {a b c : String} (hab : keyLess a b = true) (hbc : keyLess b c = true) :
    keyLess a c = true := ltChars_trans a.data b.data c.data hab hbc

theorem keyLess_total {a b : String} (hab : keyLess a b = false) (hne : a ≠ b) :
    keyLess b a = true := by
  apply ltChars_total a.data b.data hab
  intro h
  exact hne (String.ext h)

/-! ## Maps -/

theorem mem_setKey {α : Type} (m : List (String × α)) (k : String) (v : α) (p : String × α)
    (hp : p ∈ setKey m k v) : p = (k, v) ∨ p ∈ m := by
  induction m with
  | nil => simpa [setKey] using hp
  | cons hd tl ih =>
    obtain ⟨k0, v0⟩ := hd
    simp only [setKey] at hp
    split at hp
    · rcases List.mem_cons.mp hp with h | h
      · exact Or.inl h
      · exact Or.inr h
    · split at hp
      · rcases List.mem_cons.mp hp with h | h
        · exact Or.inl h
        · exact Or.inr (List.mem_cons_of_mem _ h)
      · rcases List.mem_cons.mp hp with h | h
        · exact Or.inr (h ▸ List.mem_cons_self _ _)
        · rcases ih h with h1 | h1
          · exact Or.inl h1
          · exact Or.inr (List.mem_cons_of_mem _ h1)

theorem keys_setKey {α : Type} (m : List (String × α)) (k : String) (v : α) (k1 : String) :
    k1 ∈ keys (setKey m k v) ↔ k1 = k ∨ k1 ∈ keys m := by
  induction m with
  | nil => simp [setKey, keys]
  | cons hd tl ih =>
    obtain ⟨k0, v0⟩ := hd
    simp only [keys] at ih
    simp only [setKey]
    split
    · simp [keys]
    · split
      · next h => subst h; simp [keys]
      · simp only [keys, List.map_cons, List.mem_cons, ih]
        tauto

theorem getKey_setKey_self {α : Type} (m : List (String × α)) (k : String) (v : α) :
    getKey (setKey m k v) k = some v := by
  induction m with
  | nil => simp [setKey, getKey]
  | cons hd tl ih =>
    obtain ⟨k0, v0⟩ := hd
    simp only [setKey]
    split
    · simp [getKey]
    · split
      · simp [getKey]
      · next h => simp [getKey, ih, Ne.symm h]

theorem getKey_setKey_other {α : Type} (m : List (String × α)) (k : String) (v : α)
    (k1 : String) (hne : k1 ≠ k) : getKey (setKey m k v) k1 = getKey m k1 := by
  induction m with
  | nil => simp [setKey, getKey, Ne.symm hne]
  | cons hd tl ih =>
    obtain ⟨k0, v0⟩ := hd
    simp only [setKey]
    split
    · simp [getKey, Ne.symm hne]
    · split
      · next h => subst h; simp [getKey, Ne.symm hne]
      · simp [getKey, ih]

theorem getKey_map {α β : Type} (f : α → β) (m : List (String × α)) (k : String) :
    getKey (m.map fun p => (p.1, f p.2)) k = (getKey m k).map f := by
  induction m with
  | nil => simp [getKey]
  | cons hd tl ih =>
    obtain ⟨k0, v0⟩ := hd
    by_cases h : k0 = k
    · simp [getKey, h]
    · simp [getKey, h, ih]

theorem keys_map {α β : Type} (f : α → β) (m : List (String × α)) :
    keys (m.map fun p => (p.1, f p.2)) = keys m := by
  simp [keys, List.map_map, Function.comp_def]

theorem sortedKeys_setKey {α : Type} (m : List (String × α)) (k : String) (v : α)
    (hm : SortedKeys m) : SortedKeys (setKey m k v) := by
  induction m with
  | nil => simp [setKey, SortedKeys, keys]
  | cons hd tl ih =>
    obtain ⟨k0, v0⟩ := hd
    simp only [SortedKeys, keys, List.map_cons, List.pairwise_cons] at hm
    obtain ⟨hhd, htl⟩ := hm
    simp only [setKey]
    split
    · next hlt =>
      simp only [SortedKeys, keys, List.map_cons, List.pairwise_cons, List.mem_cons]
      refine ⟨?_, hhd, htl⟩
      intro a ha
      rcases ha with ha | ha
      · exact ha ▸ hlt
      · exact keyLess_trans hlt (hhd a ha)
    · split
      · next h =>
        subst h
        simp only [SortedKeys, keys, List.map_cons, List.pairwise_cons]
        exact ⟨hhd, htl⟩
      · next hnlt hne =>
        have hgt : keyLess k0 k = true := keyLess_total (by simpa using hnlt) hne
        simp only [SortedKeys, keys, List.map_cons, List.pairwise_cons]
        refine ⟨?_, ih htl⟩
        intro a ha
        rcases (keys_setKey tl k v a).mp ha with h | h
        · exact h ▸ hgt
        · exact hhd a h

theorem nodup_of_sortedKeys {α : Type} (m : List (String × α)) (hm : SortedKeys m) :
    (keys m).Nodup := by
  refine List.Pairwise.imp ?_ hm
  intro a b hab heq
  rw [heq, keyLess_irrefl] at hab
  exact Bool.noConfusion hab

/-! ## Merging an object into `obj` -/

theorem keys_mergeFields (fs : List (String × Json)) (obj : List (String × Any)) (k : String) :
    k ∈ keys (mergeFields obj fs).1 ↔ k ∈ keys obj ∨ k ∈ keys fs := by
  induction fs generalizing obj with
  | nil => simp [mergeFields, keys]
  | cons hd tl ih =>
    obtain ⟨k0, v0⟩ := hd
    simp only [mergeFields, ih, keys_setKey]
    simp only [keys, List.map_cons, List.mem_cons]
    tauto

theorem sortedKeys_mergeFields (fs : List (String × Json)) (obj : List (String × Any))
    (hobj : SortedKeys obj) : SortedKeys (mergeFields obj fs).1 := by
  induction fs generalizing obj with
  | nil => simpa [mergeFields] using hobj
  | cons hd tl ih =>
    obtain ⟨k0, v0⟩ := hd
    simp only [mergeFields]
    exact ih _ (sortedKeys_setKey obj k0 _ hobj)

theorem getKey_mergeFields_of_not_mem (fs : List (String × Json)) (obj : List (String × Any))
    (k : String) (hk : k ∉ keys fs) : getKey (mergeFields obj fs).1 k = getKey obj k := by
  induction fs generalizing obj with
  | nil => simp [mergeFields]
  | cons hd tl ih =>
    obtain ⟨k0, v0⟩ := hd
    simp only [keys, List.map_cons, List.mem_cons, not_or] at hk
    simp only [mergeFields]
    rw [ih _ (by simpa [keys] using hk.2), getKey_setKey_other _ _ _ _ hk.1]

theorem getKey_mergeFields_of_mem (fs : List (String × Json)) (obj : List (String × Any))
    (k : String) (v : Json) (hnd : (keys fs).Nodup) (hmem : (k, v) ∈ fs) :
    getKey (mergeFields obj fs).1 k = some (.generic (generic v).1) := by
  induction fs generalizing obj with
  | nil => simp at hmem
  | cons hd tl ih =>
    obtain ⟨k0, v0⟩ := hd
    simp only [keys, List.map_cons, List.nodup_cons] at hnd
    simp only [mergeFields]
    rcases List.mem_cons.mp hmem with h | h
    · injection h with h1 h2
      subst h1; subst h2
      rw [getKey_mergeFields_of_not_mem _ _ _ (by simpa [keys] using hnd.1), getKey_setKey_self]
    · exact ih _ hnd.2 h

theorem mergeFields_flag (fs : List (String × Json)) (obj : List (String × Any))
    (h : ∀ p ∈ fs, (generic p.2).2 = false) : (mergeFields obj fs).2 = false := by
  induction fs generalizing obj with
  | nil => simp [mergeFields]
  | cons hd tl ih =>
    obtain ⟨k0, v0⟩ := hd
    simp only [mergeFields, Bool.or_eq_false_iff]
    exact ⟨h (k0, v0) (List.mem_cons_self _ _), ih _ fun p hp => h p (List.mem_cons_of_mem _ hp)⟩


/-! ## UTF-8 -/

theorem toNat_ofNat_of_lt (k : Nat) (h : k < 256) : (UInt8.ofNat k).toNat = k := by
  show k % 256 = k
  exact Nat.mod_eq_of_lt h

theorem char_bound (c : Char) : c.toNat < 0xD800 ∨ (0xDFFF < c.toNat ∧ c.toNat < 0x110000) := by
  exact c.valid

theorem DecodeRune_one (b0 : UInt8) (rest : Bytes) (h : b0.toNat < 0x80) :
    DecodeRune b0 rest = (Char.ofNat b0.toNat, 1) := by
  unfold DecodeRune
  dsimp only
  rw [if_pos h]

theorem DecodeRune_two (b0 b1 : UInt8) (rest : Bytes) (h0 : 0xC2 ≤ b0.toNat)
    (h1 : b0.toNat < 0xE0) (h2 : continuation b1.toNat = true) :
    DecodeRune b0 (b1 :: rest)
      = (Char.ofNat ((b0.toNat - 0xC0) * 64 + (b1.toNat - 0x80)), 2) := by
  unfold DecodeRune
  dsimp only
  rw [if_neg (by omega), if_neg (by omega), if_pos h1, if_pos h2]

theorem DecodeRune_three (b0 b1 b2 : UInt8) (rest : Bytes) (h0 : 0xE0 ≤ b0.toNat)
    (h1 : b0.toNat < 0xF0)
    (h2 : (if b0.toNat = 0xE0 then 0xA0 else 0x80) ≤ b1.toNat ∧
      b1.toNat ≤ (if b0.toNat = 0xED then 0x9F else 0xBF) ∧ continuation b2.toNat = true) :
    DecodeRune b0 (b1 :: b2 :: rest)
      = (Char.ofNat ((b0.toNat - 0xE0) * 4096 + (b1.toNat - 0x80) * 64 + (b2.toNat - 0x80)), 3) := by
  unfold DecodeRune
  dsimp only
  rw [if_neg (by omega), if_neg (by omega), if_neg (by omega), if_pos h1, if_pos h2]

theorem DecodeRune_four (b0 b1 b2 b3 : UInt8) (rest : Bytes) (h0 : 0xF0 ≤ b0.toNat)
    (h1 : b0.toNat < 0xF5)
    (h2 : (if b0.toNat = 0xF0 then 0x90 else 0x80) ≤ b1.toNat ∧
      b1.toNat ≤ (if b0.toNat = 0xF4 then 0x8F else 0xBF) ∧ continuation b2.toNat = true ∧
      continuation b3.toNat = true) :
    DecodeRune b0 (b1 :: b2 :: b3 :: rest)
      = (Char.ofNat ((b0.toNat - 0xF0) * 262144 + (b1.toNat - 0x80) * 4096
          + (b2.toNat - 0x80) * 64 + (b3.toNat - 0x80)), 4) := by
  unfold DecodeRune
  dsimp only
  rw [if_neg (by omega), if_neg (by omega), if_neg (by omega), if_neg (by omega), if_pos h1,
    if_pos h2]

theorem continuation_low (n : Nat) : continuation (0x80 + n % 64) = true := by
  have h : n % 64 < 64 := Nat.mod_lt _ (by decide)
  simp only [continuation, Bool.and_eq_true, decide_eq_true_eq]
  omega

theorem decodeRunes_encode (c : Char) (bs : Bytes) :
    decodeRunes 0 (utf8EncodeChar c ++ bs) = c :: decodeRunes 0 bs := by
  have hb := char_bound c
  have hc : Char.ofNat c.toNat = c := Char.ofNat_toNat c
  unfold utf8EncodeChar
  dsimp only
  split
  · next h1 =>
    have e0 := toNat_ofNat_of_lt c.toNat (by omega)
    have hd := DecodeRune_one (UInt8.ofNat c.toNat) bs (by omega)
    simp only [List.cons_append, List.nil_append]
    rw [decodeRunes, hd, e0, hc]
    rfl
  · split
    · next h1 h2 =>
      have e0 := toNat_ofNat_of_lt (0xC0 + c.toNat / 64) (by omega)
      have e1 := toNat_ofNat_of_lt (0x80 + c.toNat % 64) (by omega)
      have hd := DecodeRune_two (UInt8.ofNat (0xC0 + c.toNat / 64))
        (UInt8.ofNat (0x80 + c.toNat % 64)) bs (by omega) (by omega)
        (by rw [e1]; exact continuation_low _)
      rw [e0, e1] at hd
      have hv : (0xC0 + c.toNat / 64 - 0xC0) * 64 + (0x80 + c.toNat % 64 - 0x80) = c.toNat := by
        omega
      rw [hv, hc] at hd
      simp only [List.cons_append, List.nil_append]
      rw [decodeRunes, hd]
      simp only [decodeRunes, Nat.add_one_sub_one]
    · split
      · next h1 h2 h3 =>
        have e0 := toNat_ofNat_of_lt (0xE0 + c.toNat / 4096) (by omega)
        have e1 := toNat_ofNat_of_lt (0x80 + c.toNat / 64 % 64) (by omega)
        have e2 := toNat_ofNat_of_lt (0x80 + c.toNat % 64) (by omega)
        have hd := DecodeRune_three (UInt8.ofNat (0xE0 + c.toNat / 4096))
          (UInt8.ofNat (0x80 + c.toNat / 64 % 64)) (UInt8.ofNat (0x80 + c.toNat % 64)) bs
          (by omega) (by omega)
          (by
            rw [e0, e1, e2]
            refine ⟨?_, ?_, continuation_low _⟩
            · split <;> omega
            · split <;> omega)
        rw [e0, e1, e2] at hd
        have hv : (0xE0 + c.toNat / 4096 - 0xE0) * 4096 + (0x80 + c.toNat / 64 % 64 - 0x80) * 64
            + (0x80 + c.toNat % 64 - 0x80) = c.toNat := by omega
        rw [hv, hc] at hd
        simp only [List.cons_append, List.nil_append]
        rw [decodeRunes, hd]
        simp only [decodeRunes, Nat.add_one_sub_one]
      · next h1 h2 h3 =>
        have e0 := toNat_ofNat_of_lt (0xF0 + c.toNat / 262144) (by omega)
        have e1 := toNat_ofNat_of_lt (0x80 + c.toNat / 4096 % 64) (by omega)
        have e2 := toNat_ofNat_of_lt (0x80 + c.toNat / 64 % 64) (by omega)
        have e3 := toNat_ofNat_of_lt (0x80 + c.toNat % 64) (by omega)
        have hd := DecodeRune_four (UInt8.ofNat (0xF0 + c.toNat / 262144))
          (UInt8.ofNat (0x80 + c.toNat / 4096 % 64)) (UInt8.ofNat (0x80 + c.toNat / 64 % 64))
          (UInt8.ofNat (0x80 + c.toNat % 64)) bs (by omega) (by omega)
          (by
            rw [e0, e1, e2, e3]
            refine ⟨?_, ?_, continuation_low _, continuation_low _⟩
            · split <;> omega
            · split <;> omega)
        rw [e0, e1, e2, e3] at hd
        have hv : (0xF0 + c.toNat / 262144 - 0xF0) * 262144
            + (0x80 + c.toNat / 4096 % 64 - 0x80) * 4096
            + (0x80 + c.toNat / 64 % 64 - 0x80) * 64 + (0x80 + c.toNat % 64 - 0x80) = c.toNat := by
          omega
        rw [hv, hc] at hd
        simp only [List.cons_append, List.nil_append]
        rw [decodeRunes, hd]
        simp only [decodeRunes, Nat.add_one_sub_one]

theorem decodeRunes_utf8Chars (cs : List Char) (bs : Bytes) :
    decodeRunes 0 (utf8Chars cs ++ bs) = cs ++ decodeRunes 0 bs := by
  induction cs with
  | nil => rfl
  | cons c cs ih =>
    simp only [utf8Chars, List.append_assoc, List.cons_append]
    rw [decodeRunes_encode, ih]

theorem jsonString_utf8 (t : String) : jsonString (utf8 t) = t := by
  have h := decodeRunes_utf8Chars t.data []
  simp only [List.append_nil] at h
  simp [jsonString, utf8, h, decodeRunes]

theorem utf8_append (a b : String) : utf8 (a ++ b) = utf8 a ++ utf8 b := by
  have h : ∀ xs ys : List Char, utf8Chars (xs ++ ys) = utf8Chars xs ++ utf8Chars ys := by
    intro xs ys
    induction xs with
    | nil => rfl
    | cons c cs ih => simp [utf8Chars, ih]
  simp [utf8, h]

/-! ## Numbers that a `float64` holds exactly -/

theorem bitLenAux_zero (fuel acc : Nat) : bitLenAux fuel 0 acc = acc := by
  cases fuel <;> simp [bitLenAux]

theorem bitLenAux_eq : ∀ (fuel n acc : Nat), n ≤ fuel → n ≠ 0 →
    bitLenAux fuel n acc = acc + n.log2 + 1
  | 0, n, acc, hle, hn => absurd (Nat.le_zero.mp hle) hn
  | fuel + 1, n, acc, hle, hn => by
    rw [bitLenAux, if_neg hn]
    by_cases h2 : n / 2 = 0
    · have h1 : n = 1 := by omega
      subst h1
      rw [h2, bitLenAux_zero]
      have h0 : Nat.log2 1 = 0 := by
        rw [Nat.log2, if_neg (by omega)]
      rw [h0]
    · have hle2 : n / 2 ≤ fuel := by omega
      rw [bitLenAux_eq fuel (n / 2) (acc + 1) hle2 h2]
      have hlog : n.log2 = (n / 2).log2 + 1 := by
        rw [Nat.log2]
        rw [if_pos (by omega)]
      omega

theorem bitLen_eq (n : Nat) (hn : n ≠ 0) : bitLen n = n.log2 + 1 := by
  unfold bitLen
  rw [bitLenAux_eq n n 0 (Nat.le_refl n) hn]
  omega

theorem bitLen_mono {a b : Nat} (ha : a ≠ 0) (hab : a ≤ b) : bitLen a ≤ bitLen b := by
  have hb : b ≠ 0 := by omega
  rw [bitLen_eq a ha, bitLen_eq b hb]
  have : a.log2 ≤ b.log2 := (Nat.le_log2 hb).2 (Nat.le_trans (Nat.log2_self_le ha) hab)
  omega

theorem floorLog2_one (n : Nat) (hn : n ≠ 0) : floorLog2 n 1 = (n.log2 : Int) := by
  have hb1 : bitLen 1 = 1 := by decide
  have ht : ((bitLen n : Int) - (bitLen 1 : Int)) = (n.log2 : Int) := by
    rw [bitLen_eq n hn, hb1]
    push_cast
    omega
  unfold floorLog2
  simp only [ht]
  rw [if_pos (Int.natCast_nonneg _)]
  have hge : 1 * 2 ^ (n.log2 : Int).toNat ≤ n := by
    rw [Int.toNat_natCast, Nat.one_mul]
    exact Nat.log2_self_le hn
  rw [decide_eq_true hge]
  rfl

theorem roundFloat64_int (n : Nat) (hn : n ≠ 0) (h : n < 2 ^ 53) :
    roundFloat64 n 1 = (n * 2 ^ (52 - n.log2), -((52 - n.log2 : Nat) : Int)) := by
  have hlog : n.log2 ≤ 52 := by
    have := (Nat.log2_lt hn).2 h
    omega
  have he : max ((n.log2 : Int) - 52) (-1074) = -((52 - n.log2 : Nat) : Int) := by omega
  unfold roundFloat64
  rw [floorLog2_one n hn]
  simp only [he]
  by_cases hk : 52 - n.log2 = 0
  · rw [hk]
    simp
    omega
  · have hneg : ¬ (0 : Int) ≤ -((52 - n.log2 : Nat) : Int) := by omega
    simp only [if_neg hneg]
    simp
    omega

theorem shortestSearch_exact (n B gL gU : Nat) (incl : Bool) (hn : 0 < n) (hB : 0 < B)
    (hgL : 0 < gL) (hgL2 : gL ≤ 2) (hgU : 0 < gU) (hgU2 : gU ≤ 2) :
    ∀ (fuel : Nat) (j : Int), 0 ≤ j →
      (shortestSearch (n * B) B gL gU incl fuel j).1
          = n * (shortestSearch (n * B) B gL gU incl fuel j).2
        ∧ (shortestSearch (n * B) B gL gU incl fuel j).2 ≠ 0 := by
  intro fuel
  induction fuel with
  | zero =>
    intro j _
    simp only [shortestSearch]
    exact ⟨trivial, by omega⟩
  | succ fuel ih =>
    intro j hj
    rw [shortestSearch]
    simp only [if_pos hj, Nat.mul_one]
    have hW : 0 < 10 ^ j.toNat := Nat.pow_pos (by decide)
    have hd : n * B / (B * 10 ^ j.toNat) = n / 10 ^ j.toNat := by
      rw [Nat.mul_comm n B]
      exact Nat.mul_div_mul_left _ _ hB
    rw [hd]
    have hj0 : j = 0 → n / 10 ^ j.toNat * 10 ^ j.toNat = n := by
      intro h
      subst h
      simp
    generalize 10 ^ j.toNat = W at hW hj0 ⊢
    have c1 : n / W * W ≤ n := Nat.div_mul_le_self n W
    have c2 : n + 1 ≤ (n / W + 1) * W := by
      have h := Nat.lt_mul_div_succ n hW
      rw [Nat.mul_comm] at h
      exact h
    generalize n / W = d at c1 c2 hj0 ⊢
    have hX : 1 ≤ n * B := Nat.mul_pos hn hB
    have hY : d * W * 4 * B ≤ 4 * (n * B) := by
      calc d * W * 4 * B = (d * W) * (4 * B) := by ring
        _ ≤ n * (4 * B) := Nat.mul_le_mul_right _ c1
        _ = 4 * (n * B) := by ring
    have hY2 : d * W ≠ n → d * W * 4 * B + 4 ≤ 4 * (n * B) := by
      intro hne
      have h1 : d * W + 1 ≤ n := by omega
      calc d * W * 4 * B + 4 ≤ d * W * 4 * B + 4 * B := by omega
        _ = (d * W + 1) * (4 * B) := by ring
        _ ≤ n * (4 * B) := Nat.mul_le_mul_right _ h1
        _ = 4 * (n * B) := by ring
    have hY3 : d * W = n → d * W * 4 * B = 4 * (n * B) := by
      intro h
      rw [h]
      ring
    have hZ : 4 * (n * B) + 4 ≤ (d + 1) * W * 4 * B := by
      calc 4 * (n * B) + 4 ≤ 4 * (n * B) + 4 * B := by omega
        _ = (n + 1) * (4 * B) := by ring
        _ ≤ ((d + 1) * W) * (4 * B) := Nat.mul_le_mul_right _ c2
        _ = (d + 1) * W * 4 * B := by ring
    split
    · rename_i h1 h2
      exfalso
      cases incl <;> simp at h2 <;> omega
    · rename_i h1 h2
      have hdn : d * W = n := by
        by_contra hne
        have := hY2 hne
        cases incl <;> simp at h1 <;> omega
      simp only [hdn, Nat.mul_one]
      exact ⟨trivial, by omega⟩
    · rename_i h1 h2
      exfalso
      cases incl <;> simp at h2 <;> omega
    · rename_i h1 h2
      have hjne : j ≠ 0 := by
        intro h
        have h3 := hY3 (hj0 h)
        cases incl <;> simp at h1 <;> omega
      exact ih (j - 1) (by omega)

theorem scaled_bounds (n : Nat) (hn : n ≠ 0) (h : n < 2 ^ 53) :
    2 ^ 52 ≤ n * 2 ^ (52 - n.log2) ∧ n * 2 ^ (52 - n.log2) < 2 ^ 53 := by
  have hlog : n.log2 ≤ 52 := by
    have := (Nat.log2_lt hn).2 h
    omega
  have hlo := Nat.log2_self_le hn
  have hhi := @Nat.lt_log2_self n
  have hpos : 0 < 2 ^ (52 - n.log2) := Nat.pow_pos (by decide)
  constructor
  · calc 2 ^ 52 = 2 ^ n.log2 * 2 ^ (52 - n.log2) := by
          rw [← Nat.pow_add]
          congr 1
          omega
      _ ≤ n * 2 ^ (52 - n.log2) := Nat.mul_le_mul_right _ hlo
  · calc n * 2 ^ (52 - n.log2) < 2 ^ (n.log2 + 1) * 2 ^ (52 - n.log2) :=
          Nat.mul_lt_mul_of_pos_right hhi hpos
      _ = 2 ^ 53 := by
          rw [← Nat.pow_add]
          congr 1
          omega

theorem bitLen_scaled (q : Nat) (hlo : 2 ^ 52 ≤ q) (hhi : q < 2 ^ 53) : bitLen q = 53 := by
  have hq : q ≠ 0 := by
    have : 0 < 2 ^ 52 := Nat.pow_pos (by decide)
    omega
  rw [bitLen_eq q hq]
  have h1 : 52 ≤ q.log2 := (Nat.le_log2 hq).2 hlo
  have h2 : q.log2 < 53 := (Nat.log2_lt hq).2 hhi
  omega

theorem shortest_int (n k : Nat) (hn : 0 < n) (hlo : 2 ^ 52 ≤ n * 2 ^ k)
    (hhi : n * 2 ^ k < 2 ^ 53) :
    (shortest (n * 2 ^ k) (-(k : Int))).1 = n * (shortest (n * 2 ^ k) (-(k : Int))).2
      ∧ (shortest (n * 2 ^ k) (-(k : Int))).2 ≠ 0 := by
  have hne : n * 2 ^ k ≠ 2 ^ 53 := by omega
  have hB : 0 < 2 ^ k := Nat.pow_pos (by decide)
  have hmono : bitLen (2 ^ k) ≤ bitLen (n * 2 ^ k) :=
    bitLen_mono (by omega) (Nat.le_mul_of_pos_left _ hn)
  have key : ∀ gL, 0 < gL → gL ≤ 2 →
      (shortestSearch (n * 2 ^ k) (2 ^ k) gL 2 (decide (n * 2 ^ k % 2 = 0)) 40
          (((bitLen (n * 2 ^ k) : Int) - (bitLen (2 ^ k) : Int) + 1) * 30103 / 100000 + 2)).1
        = n * (shortestSearch (n * 2 ^ k) (2 ^ k) gL 2 (decide (n * 2 ^ k % 2 = 0)) 40
          (((bitLen (n * 2 ^ k) : Int) - (bitLen (2 ^ k) : Int) + 1) * 30103 / 100000 + 2)).2
      ∧ (shortestSearch (n * 2 ^ k) (2 ^ k) gL 2 (decide (n * 2 ^ k % 2 = 0)) 40
          (((bitLen (n * 2 ^ k) : Int) - (bitLen (2 ^ k) : Int) + 1) * 30103 / 100000 + 2)).2 ≠ 0 := by
    intro gL h1 h2
    exact shortestSearch_exact n (2 ^ k) gL 2 _ hn hB h1 h2 (by decide) (by decide) 40 _
      (by omega)
  unfold shortest
  simp only [if_neg hne]
  by_cases hk : k = 0
  · subst hk
    simp only [Nat.pow_zero, Nat.mul_one] at key hlo hhi hne ⊢
    simp
    exact key _ (by split <;> omega) (by split <;> omega)
  · have hneg : ¬ (0 : Int) ≤ -(k : Int) := by omega
    simp only [if_neg hneg]
    simp
    exact key _ (by split <;> omega) (by split <;> omega)

/-- An integer of magnitude below `2^53` is a `float64` and is printed with all its digits: the
decoding by `json.Unmarshal` into an `interface{}` followed by the printing by `Encode` gives
the same number. -/
theorem float64Trip_exact (x : ℚ) (hd : x.den = 1) (hn : x.num.natAbs < 2 ^ 53) :
    float64Trip x = some x := by
  by_cases h0 : x.num = 0
  · have hx : x = 0 := Rat.zero_of_num_zero h0
    subst hx
    decide
  · have hn0 : x.num.natAbs ≠ 0 := by omega
    obtain ⟨hlo, hhi⟩ := scaled_bounds x.num.natAbs hn0 hn
    obtain ⟨hs1, hs2⟩ := shortest_int x.num.natAbs (52 - x.num.natAbs.log2) (by omega) hlo hhi
    have hlen := bitLen_scaled _ hlo hhi
    have hxq : (x.num : ℚ) = x := Rat.coe_int_num_of_den_eq_one hd
    have hint : x.num < 0 → x.num = -((x.num.natAbs : Nat) : Int) := by omega
    have hint2 : ¬ x.num < 0 → x.num = ((x.num.natAbs : Nat) : Int) := by omega
    unfold float64Trip
    rw [hd, roundFloat64_int x.num.natAbs hn0 hn]
    simp only []
    rw [if_neg (by omega), if_neg (by rw [hlen, Int.toNat_neg_nat]; omega)]
    generalize shortest (x.num.natAbs * 2 ^ (52 - x.num.natAbs.log2))
      (-((52 - x.num.natAbs.log2 : Nat) : Int)) = s at hs1 hs2 ⊢
    generalize x.num.natAbs = m at hs1 hint hint2
    have hs2q : (s.2 : ℚ) ≠ 0 := by exact_mod_cast hs2
    by_cases hneg : x.num < 0
    · rw [if_pos hneg, Rat.mkRat_eq_div, hs1]
      congr 1
      have hxm : x = -(m : ℚ) := by
        rw [← hxq, hint hneg]
        simp only [Int.cast_neg, Int.cast_natCast]
      rw [hxm]
      push_cast
      field_simp
    · rw [if_neg hneg, Rat.mkRat_eq_div, hs1]
      congr 1
      have hxm : x = (m : ℚ) := by
        rw [← hxq, hint2 hneg]
        simp only [Int.cast_natCast]
      rw [hxm]
      push_cast
      field_simp

theorem float64Trip_exact_witness :
    float64Trip 9007199254740991 = some 9007199254740991 :=
  float64Trip_exact 9007199254740991 rfl (by decide)

theorem Itoa_examples :
    Itoa 12 = utf8 "12" ∧ Itoa 305 = utf8 "305" ∧ Itoa 0 = utf8 "0" ∧ Itoa (-7) = utf8 "-7" := by
  decide

theorem jsonString_location (f : String) (line : Int) :
    jsonString (utf8 f ++ utf8 ":" ++ Itoa line) = f ++ ":" ++ toString line := by
  rw [Itoa, ← utf8_append, ← utf8_append, jsonString_utf8]

/-! ## Encoding never fails on held values that encode -/

theorem encodeFields_ok (m : List (String × Any)) (h : ∀ p ∈ m, p.2.marshal = .ok p.2.doc) :
    encodeFields m = .ok (m.map fun p => (p.1, p.2.doc)) := by
  induction m with
  | nil => rfl
  | cons hd tl ih =>
    obtain ⟨k0, a0⟩ := hd
    have h0 : a0.marshal = .ok a0.doc := h (k0, a0) (List.mem_cons_self _ _)
    have h1 := ih fun p hp => h p (List.mem_cons_of_mem _ hp)
    simp [encodeFields, h0, h1]

theorem marshal_string (s : Bytes) : (Any.string s).marshal = .ok (Any.string s).doc := rfl

theorem marshal_item (v : Value) (j : Json) (hv : Marshal v = .ok j) :
    (Any.item v).marshal = .ok (Any.item v).doc := by
  simp [Any.marshal, Any.doc, hv]

theorem marshal_generic (g : Generic) (j : Json) (hg : g.encode = .ok j) :
    (Any.generic g).marshal = .ok (Any.generic g).doc := by
  simp [Any.marshal, Any.doc, hg]

theorem encodes_setKey (m : List (String × Any)) (k : String) (a : Any)
    (hm : ∀ p ∈ m, p.2.marshal = .ok p.2.doc) (ha : a.marshal = .ok a.doc) :
    ∀ p ∈ setKey m k a, p.2.marshal = .ok p.2.doc := by
  intro p hp
  rcases mem_setKey m k a p hp with h | h
  · rw [h]; exact ha
  · exact hm p h

theorem encodes_mergeFields (fs : List (String × Json)) (obj : List (String × Any))
    (hobj : ∀ p ∈ obj, p.2.marshal = .ok p.2.doc)
    (hfs : ∀ p ∈ fs, ∃ j, (generic p.2).1.encode = .ok j) :
    ∀ p ∈ (mergeFields obj fs).1, p.2.marshal = .ok p.2.doc := by
  induction fs generalizing obj with
  | nil => simpa [mergeFields] using hobj
  | cons hd tl ih =>
    obtain ⟨k0, v0⟩ := hd
    obtain ⟨j, hj⟩ := hfs (k0, v0) (List.mem_cons_self _ _)
    simp only [mergeFields]
    exact ih _ (encodes_setKey obj k0 _ hobj (marshal_generic _ j hj))
      (fun p hp => hfs p (List.mem_cons_of_mem _ hp))

/-! ## The runs of `JSON` and `Recover` from a state where `Output` is free -/

theorem JSON_run (env : Env) (v : Value) (w : World) (hfree : w.Output.held = false) :
    JSON env v w =
      match typeSwitch v (newObj env.frames[1]?) with
      | .error err =>
        ({ Output := { held := false }, stdout := w.stdout,
           events := w.events ++ [.lock, .caller 1, .unlock] }, .panicked err)
      | .ok obj =>
        match marshalMap obj with
        | .error err =>
          ({ Output := { held := false }, stdout := w.stdout,
             events := w.events ++ [.lock, .caller 1, .unlock] }, .panicked err)
        | .ok doc =>
          match env.writeErr with
          | none =>
            ({ Output := { held := false }, stdout := w.stdout ++ [.line doc],
               events := w.events ++ [.lock, .caller 1, .write, .unlock] }, .returned)
          | some (n, err) =>
            ({ Output := { held := false }, stdout := w.stdout ++ [.cut doc n],
               events := w.events ++ [.lock, .caller 1, .write, .unlock] }, .panicked err) := by
  simp only [JSON, lock, hfree, JSONBody, Caller]
  cases typeSwitch v (newObj env.frames[1]?) with
  | error err => simp [unlock]
  | ok obj =>
    dsimp only
    cases marshalMap obj with
    | error err => simp [Encode, unlock]
    | ok doc =>
      cases hw : env.writeErr with
      | none => simp [Encode, unlock, hw]
      | some ne =>
        obtain ⟨n, err⟩ := ne
        simp [Encode, unlock, hw]

theorem Recover_run (env : Env) (r : Value) (w : World) (hfree : w.Output.held = false)
    (hr : r ≠ .nil) :
    Recover env r w =
      match marshalStruct (recoverStruct env r) with
      | .error _ =>
        ({ Output := { held := false }, stdout := w.stdout,
           events := w.events ++ [.lock, .unlock, .exit 1] }, .exited 1)
      | .ok doc =>
        match env.writeErr with
        | none =>
          ({ Output := { held := false }, stdout := w.stdout ++ [.line doc],
             events := w.events ++ [.lock, .write, .unlock, .exit 1] }, .exited 1)
        | some (n, _) =>
          ({ Output := { held := false }, stdout := w.stdout ++ [.cut doc n],
             events := w.events ++ [.lock, .write, .unlock, .exit 1] }, .exited 1) := by
  cases r with
  | nil => exact absurd rfl hr
  | string s =>
    simp only [Recover, lock, hfree]
    cases marshalStruct (recoverStruct env (.string s)) with
    | error err => simp [Encode, unlock, Exit]
    | ok doc =>
      cases hw : env.writeErr with
      | none => simp [Encode, unlock, Exit, hw]
      | some ne => obtain ⟨n, err⟩ := ne; simp [Encode, unlock, Exit, hw]
  | error message m =>
    simp only [Recover, lock, hfree]
    cases marshalStruct (recoverStruct env (.error message m)) with
    | error err => simp [Encode, unlock, Exit]
    | ok doc =>
      cases hw : env.writeErr with
      | none => simp [Encode, unlock, Exit, hw]
      | some ne => obtain ⟨n, err⟩ := ne; simp [Encode, unlock, Exit, hw]
  | other m =>
    simp only [Recover, lock, hfree]
    cases marshalStruct (recoverStruct env (.other m)) with
    | error err => simp [Encode, unlock, Exit]
    | ok doc =>
      cases hw : env.writeErr with
      | none => simp [Encode, unlock, Exit, hw]
      | some ne => obtain ⟨n, err⟩ := ne; simp [Encode, unlock, Exit, hw]


/-! ## The record and its serialization -/

theorem keyLess_Message_File : keyLess "Message" "File" = false := by decide

theorem keyLess_Error_File : keyLess "Error" "File" = true := by decide

theorem keyLess_Item_File : keyLess "Item" "File" = false := by decide

theorem keyLess_Error_Message : keyLess "Error" "Message" = true := by decide

theorem newObj_some (file : Bytes) (line : Int) :
    newObj (some (file, line)) = [("File", .string (file ++ utf8 ":" ++ Itoa line))] := by
  simp [newObj, setKey]

theorem encodes_newObj (loc : Option (Bytes × Int)) :
    ∀ p ∈ newObj loc, p.2.marshal = .ok p.2.doc := by
  intro p hp
  cases loc with
  | none => simp [newObj] at hp
  | some fl =>
    obtain ⟨file, line⟩ := fl
    rw [newObj_some] at hp
    rw [List.mem_singleton.mp hp]
    rfl

theorem sortedKeys_newObj (loc : Option (Bytes × Int)) : SortedKeys (newObj loc) := by
  cases loc with
  | none => simp [newObj, SortedKeys, keys]
  | some fl =>
    obtain ⟨file, line⟩ := fl
    rw [newObj_some]
    simp [SortedKeys, keys]

theorem JSON_outcome (env : Env) (v : Value) (w : World) (hfree : w.Output.held = false)
    (hwrite : env.writeErr = none) :
    JSON env v w =
      match serialize env v with
      | .error err =>
        ({ Output := { held := false }, stdout := w.stdout,
           events := w.events ++ [.lock, .caller 1, .unlock] }, .panicked err)
      | .ok doc =>
        ({ Output := { held := false }, stdout := w.stdout ++ [.line doc],
           events := w.events ++ [.lock, .caller 1, .write, .unlock] }, .returned) := by
  rw [JSON_run env v w hfree]
  unfold serialize record
  cases typeSwitch v (newObj env.frames[1]?) with
  | error err => rfl
  | ok obj =>
    dsimp only
    cases marshalMap obj with
    | error err => rfl
    | ok doc => simp only [hwrite]

theorem serialize_nil (env : Env) :
    serialize env .nil = .ok (.obj ((newObj env.frames[1]?).map fun p => (p.1, p.2.doc))) := by
  simp only [serialize, record, typeSwitch, marshalMap,
    encodeFields_ok _ (encodes_newObj env.frames[1]?)]

theorem serialize_string (env : Env) (s : Bytes) :
    serialize env (.string s)
      = .ok (.obj ((setKey (newObj env.frames[1]?) "Message" (.string s)).map
          fun p => (p.1, p.2.doc))) := by
  simp only [serialize, record, typeSwitch, marshalMap,
    encodeFields_ok _
      (encodes_setKey _ "Message" _ (encodes_newObj env.frames[1]?) (marshal_string s))]

theorem serialize_of_marshal_error (env : Env) (v : Value) (err : String)
    (hv : Marshal v = .error err) : serialize env v = .error err := by
  cases v with
  | nil => simp [Marshal] at hv
  | string s => simp [Marshal] at hv
  | error message m =>
    simp only [Marshal] at hv
    subst hv
    unfold serialize record
    cases env.frames[1]? with
    | none =>
      simp [typeSwitch, newObj, setKey, keyLess_Error_Message, marshalMap,
        encodeFields, Any.marshal, Marshal]
    | some fl =>
      simp [typeSwitch, newObj, setKey, keyLess_Error_File,
        keyLess_Message_File, marshalMap, encodeFields, Any.marshal, Marshal]
  | other m =>
    simp only [Marshal] at hv
    subst hv
    simp [serialize, record, typeSwitch]

theorem typeSwitch_shape (v : Value) (obj : List (String × Any))
    (o : Option (List (String × Any))) (hv : v ≠ .other (.ok .null))
    (ho : typeSwitch v obj = .ok o) : ∃ m, o = some m := by
  cases v with
  | nil => exact ⟨obj, by simpa [typeSwitch] using ho.symm⟩
  | string s => exact ⟨_, by simpa [typeSwitch] using ho.symm⟩
  | error message m => exact ⟨_, by simpa [typeSwitch] using ho.symm⟩
  | other m =>
    cases m with
    | error e => simp [typeSwitch] at ho
    | ok b =>
      cases b with
      | null => exact absurd rfl hv
      | bool x => exact ⟨_, by simpa [typeSwitch, Unmarshal] using ho.symm⟩
      | num x => exact ⟨_, by simpa [typeSwitch, Unmarshal] using ho.symm⟩
      | str x => exact ⟨_, by simpa [typeSwitch, Unmarshal] using ho.symm⟩
      | arr x => exact ⟨_, by simpa [typeSwitch, Unmarshal] using ho.symm⟩
      | obj fields =>
        cases hflag : (mergeFields obj fields).2 with
        | false => exact ⟨_, by simpa [typeSwitch, Unmarshal, hflag] using ho.symm⟩
        | true => exact ⟨_, by simpa [typeSwitch, Unmarshal, hflag] using ho.symm⟩

theorem serialize_isObject (env : Env) (v : Value) (doc : Json) (hv : v ≠ .other (.ok .null))
    (hdoc : serialize env v = .ok doc) : ∃ fs, doc = .obj fs := by
  unfold serialize record at hdoc
  cases ho : typeSwitch v (newObj env.frames[1]?) with
  | error err => simp [ho] at hdoc
  | ok o =>
    obtain ⟨m, hm⟩ := typeSwitch_shape v _ o hv ho
    subst hm
    simp only [ho, marshalMap] at hdoc
    cases he : encodeFields m with
    | error e => simp [he] at hdoc
    | ok fs =>
      simp only [he] at hdoc
      injection hdoc with h
      exact ⟨fs, h.symm⟩

/-! ## Strings, errors and nil -/

/-- Claim C5, as amended: for every Go string `s` and every location `(file, line)` of the frame
that called `JSON` (frame 1 of `runtime.Caller`, whatever frame 0 is), `JSON(s)` writes one
line, the object with exactly the fields `File` and `Message`, and returns. `Message` is `s`
and `File` is `<file>:<line>` as `encoding/json` writes a Go string: every byte that is not
part of a valid UTF-8 encoding has become U+FFFD. So when `file` is the UTF-8 encoding of the
text `f`, `File` is `f`, a colon and the decimal digits of `line`, whatever `s` is; and when
moreover `s` is the UTF-8 encoding of the text `t`, `Message` is `t`. -/
theorem JSON_string_record (env : Env) (w : World) (s file : Bytes) (line : Int)
    (hfree : w.Output.held = false) (hwrite : env.writeErr = none)
    (hcaller : env.frames[1]? = some (file, line)) :
    ((JSON env (.string s) w).1.stdout
        = w.stdout ++ [.line (.obj [("File", .str (jsonString (file ++ utf8 ":" ++ Itoa line))),
            ("Message", .str (jsonString s))])]
      ∧ (JSON env (.string s) w).2 = .returned)
    ∧ (∀ f : String, file = utf8 f →
        (JSON env (.string s) w).1.stdout
          = w.stdout ++ [.line (.obj [("File", .str (f ++ ":" ++ toString line)),
              ("Message", .str (jsonString s))])])
    ∧ (∀ f t : String, file = utf8 f → s = utf8 t →
        (JSON env (.string s) w).1.stdout
          = w.stdout ++ [.line (.obj [("File", .str (f ++ ":" ++ toString line)),
              ("Message", .str t)])]) := by
  have h : (JSON env (.string s) w).1.stdout
        = w.stdout ++ [.line (.obj [("File", .str (jsonString (file ++ utf8 ":" ++ Itoa line))),
            ("Message", .str (jsonString s))])]
      ∧ (JSON env (.string s) w).2 = .returned := by
    rw [JSON_outcome env _ w hfree hwrite, serialize_string, hcaller, newObj_some]
    simp [setKey, keyLess_Message_File, Any.doc, Any.marshal]
  refine ⟨h, ?_, ?_⟩
  · intro f hf
    rw [h.1, hf, jsonString_location]
  · intro f t hf ht
    rw [h.1, ht, hf, jsonString_utf8, jsonString_location]

theorem JSON_string_record_witness :
    ((JSON env1 (.string (utf8 "started")) world0).1.stdout
        = world0.stdout ++ [.line (.obj [("File", .str "handler.go:305"),
            ("Message", .str "started")])]
      ∧ (JSON env1 (.string (utf8 "started")) world0).2 = .returned)
    ∧ (JSON env1 (.string badString) world0).1.stdout
        = world0.stdout ++ [.line (.obj [("File", .str ("handler.go" ++ ":" ++ toString (305 : Int))),
            ("Message", .str (jsonString badString))])]
    ∧ (JSON env1 (.string (utf8 "started")) world0).1.stdout
        = world0.stdout ++ [.line (.obj [("File", .str ("handler.go" ++ ":" ++ toString (305 : Int))),
            ("Message", .str "started")])] :=
  ⟨(JSON_string_record env1 world0 (utf8 "started") (utf8 "handler.go") 305 rfl rfl rfl).1,
    (JSON_string_record env1 world0 badString (utf8 "handler.go") 305 rfl rfl rfl).2.1
      "handler.go" rfl,
    (JSON_string_record env1 world0 (utf8 "started") (utf8 "handler.go") 305 rfl rfl rfl).2.2
      "handler.go" "started" rfl rfl⟩

/-- Counterexample to claim C5 as stated: for the Go string `"a\xffb"`, the record written has
the `Message` `a`, U+FFFD, `b`, whose bytes are not those of the input. -/
theorem JSON_string_invalid_utf8 :
    (JSON env0 (.string badString) world0).1.stdout
        = [.line (.obj [("File", .str "main.go:12"), ("Message", .str "a�b")])]
      ∧ utf8 "a�b" ≠ badString :=
  ⟨by rfl, by decide⟩

/-- Claim C4, as amended: for every error value `e` that `json.Marshal` encodes as `j`, and
every caller location, `JSON(e)` writes one line, the object with exactly the fields
`Error = j`, `File` and `Message`; the fields of `j` stay under `Error`, whatever `j` is.
`Message` is `e.Error()` as `encoding/json` writes a Go string (every byte that is not part of
a valid UTF-8 encoding has become U+FFFD): it is the text `t` when `e.Error()` is valid UTF-8,
the encoding of `t`. For an error value on which `json.Marshal` fails, `JSON` panics with that
error and writes nothing. -/
theorem JSON_error_record (env : Env) (w : World) (message file : Bytes) (line : Int)
    (m : Except String Json) (hfree : w.Output.held = false) (hwrite : env.writeErr = none)
    (hcaller : env.frames[1]? = some (file, line)) :
    (∀ j, m = .ok j →
        ((JSON env (.error message m) w).1.stdout
            = w.stdout ++ [.line (.obj [("Error", j),
                ("File", .str (jsonString (file ++ utf8 ":" ++ Itoa line))),
                ("Message", .str (jsonString message))])]
          ∧ (JSON env (.error message m) w).2 = .returned)
        ∧ (∀ t : String, message = utf8 t →
            (JSON env (.error message m) w).1.stdout
              = w.stdout ++ [.line (.obj [("Error", j),
                  ("File", .str (jsonString (file ++ utf8 ":" ++ Itoa line))),
                  ("Message", .str t)])]))
    ∧ (∀ err, m = .error err →
        (JSON env (.error message m) w).2 = .panicked err
          ∧ (JSON env (.error message m) w).1.stdout = w.stdout) := by
  constructor
  · intro j hj
    subst hj
    have h : (JSON env (.error message (.ok j)) w).1.stdout
          = w.stdout ++ [.line (.obj [("Error", j),
              ("File", .str (jsonString (file ++ utf8 ":" ++ Itoa line))),
              ("Message", .str (jsonString message))])]
        ∧ (JSON env (.error message (.ok j)) w).2 = .returned := by
      simp [JSON, lock, unlock, hfree, JSONBody, newObj, Caller, hcaller, typeSwitch, setKey,
        Encode, marshalMap, encodeFields, Any.marshal, Marshal, hwrite, keyLess_Message_File,
        keyLess_Error_File]
    refine ⟨h, ?_⟩
    intro t ht
    rw [h.1, ht, jsonString_utf8]
  · intro err herr
    subst herr
    rw [JSON_outcome env _ w hfree hwrite,
      serialize_of_marshal_error env (.error message (.error err)) err rfl]
    exact ⟨rfl, rfl⟩

theorem JSON_error_record_witness :
    ((JSON env0 (.error (utf8 "not found") (.ok (.obj [("Code", .num 404)]))) world0).1.stdout
        = world0.stdout ++ [.line (.obj [("Error", .obj [("Code", .num 404)]),
            ("File", .str "main.go:12"), ("Message", .str "not found")])]
      ∧ (JSON env0 (.error (utf8 "not found") (.ok (.obj [("Code", .num 404)]))) world0).2
        = .returned)
    ∧ ((JSON env0 (.error (utf8 "boom") (.error "json: unsupported type: chan int")) world0).2
        = .panicked "json: unsupported type: chan int"
      ∧ (JSON env0 (.error (utf8 "boom") (.error "json: unsupported type: chan int")) world0).1.stdout
        = world0.stdout) :=
  ⟨((JSON_error_record env0 world0 (utf8 "not found") (utf8 "main.go") 12
      (.ok (.obj [("Code", .num 404)])) rfl rfl rfl).1 (.obj [("Code", .num 404)]) rfl).1,
    (JSON_error_record env0 world0 (utf8 "boom") (utf8 "main.go") 12
      (.error "json: unsupported type: chan int") rfl rfl rfl).2
        "json: unsupported type: chan int" rfl⟩

/-- Counterexample to claim C4 as stated: for an error value that holds a channel, `JSON`
panics with the error of `json.Marshal` and writes no record; and for an error value whose
`Error()` returns `"a\xffb"`, the `Message` written is `a`, U+FFFD, `b`, whose bytes are not
those of `Error()`. -/
theorem JSON_error_without_record :
    JSON env0 chanError world0
        = ({ Output := { held := false }, stdout := [],
             events := [.lock, .caller 1, .unlock] },
           .panicked "json: unsupported type: chan int")
      ∧ (JSON env0 badMessageError world0).1.stdout
        = [.line (.obj [("Error", .obj []), ("File", .str "main.go:12"),
            ("Message", .str "a�b")])]
      ∧ utf8 "a�b" ≠ badString :=
  ⟨by rfl, by rfl, by decide⟩

/-- Claim C6: `JSON(nil)` writes one line: the object with the single field `File` when
`runtime.Caller` reports the caller, and the empty object when it does not. -/
theorem JSON_nil_record (env : Env) (w : World)
    (hfree : w.Output.held = false) (hwrite : env.writeErr = none) :
    (JSON env .nil w).1.stdout
        = w.stdout ++ [.line (.obj (match env.frames[1]? with
            | some (file, line) => [("File", .str (jsonString (file ++ utf8 ":" ++ Itoa line)))]
            | none => []))]
      ∧ (JSON env .nil w).2 = .returned := by
  cases hc : env.frames[1]? with
  | none =>
    simp [JSON, lock, unlock, hfree, JSONBody, newObj, Caller, hc, typeSwitch, Encode,
      marshalMap, encodeFields, hwrite]
  | some loc =>
    obtain ⟨file, line⟩ := loc
    simp [JSON, lock, unlock, hfree, JSONBody, newObj, Caller, hc, typeSwitch, setKey, Encode,
      marshalMap, encodeFields, Any.marshal, hwrite]

theorem JSON_nil_record_witness :
    (JSON env0 .nil world0).1.stdout
        = world0.stdout ++ [.line (.obj (match env0.frames[1]? with
            | some (file, line) => [("File", .str (jsonString (file ++ utf8 ":" ++ Itoa line)))]
            | none => []))]
      ∧ (JSON env0 .nil world0).2 = .returned :=
  JSON_nil_record env0 world0 rfl rfl

/-! ## Failure of `JSON` -/

theorem serialize_error_iff (env : Env) (v : Value) (err : String) :
    serialize env v = .error err ↔
      (record env v = .error err
        ∨ ∃ obj, record env v = .ok obj ∧ marshalMap obj = .error err) := by
  unfold serialize
  cases hr : record env v with
  | error e =>
    dsimp only
    constructor
    · intro h
      injection h with h1
      exact Or.inl (by rw [h1])
    · rintro (h | ⟨obj, h, _⟩)
      · injection h with h1
        rw [h1]
      · exact Except.noConfusion h
  | ok obj =>
    dsimp only
    constructor
    · intro h
      exact Or.inr ⟨obj, rfl, h⟩
    · rintro (h | ⟨obj1, h, h1⟩)
      · exact Except.noConfusion h
      · injection h with h2
        subst h2
        exact h1

theorem serialize_ok_iff (env : Env) (v : Value) :
    (∃ doc, serialize env v = .ok doc) ↔
      ∃ obj doc, record env v = .ok obj ∧ marshalMap obj = .ok doc := by
  unfold serialize
  cases hr : record env v with
  | error e =>
    dsimp only
    constructor
    · rintro ⟨doc, h⟩
      exact Except.noConfusion h
    · rintro ⟨obj, doc, h, _⟩
      exact Except.noConfusion h
  | ok obj =>
    dsimp only
    constructor
    · rintro ⟨doc, h⟩
      exact ⟨obj, doc, rfl, h⟩
    · rintro ⟨obj1, doc, h, h1⟩
      injection h with h2
      subst h2
      exact ⟨doc, h1⟩

theorem record_error_iff (env : Env) (v : Value) (err : String) :
    record env v = .error err ↔ v = .other (.error err) := by
  unfold record
  cases v with
  | nil => simp [typeSwitch]
  | string s => simp [typeSwitch]
  | error message m => simp [typeSwitch]
  | other m =>
    cases m with
    | error e => simp [typeSwitch]
    | ok b =>
      cases b with
      | null => simp [typeSwitch, Unmarshal]
      | bool x => simp [typeSwitch, Unmarshal]
      | num x => simp [typeSwitch, Unmarshal]
      | str x => simp [typeSwitch, Unmarshal]
      | arr x => simp [typeSwitch, Unmarshal]
      | obj fields =>
        cases hm : (mergeFields (newObj env.frames[1]?) fields).2 <;>
          simp [typeSwitch, Unmarshal, hm]

/-- Claim C9: when `Output` is free and writes on standard output succeed, `JSON(v)` panics
with `err` exactly when the record built from `v` cannot be serialized, with the error `err`:
either `json.Marshal` fails on line 39, so that no record is built, which happens exactly when
`v` falls in the default case of the type switch and `json.Marshal(v)` fails, or the encoding
of `obj` fails on line 48. It returns exactly when the record is built and encoded. It returns
for nil and for every string; it panics whenever `json.Marshal(v)` fails; and when it panics
standard output is as it was before the call. -/
theorem JSON_panics_iff (env : Env) (v : Value) (w : World)
    (hfree : w.Output.held = false) (hwrite : env.writeErr = none) :
    (∀ err, (JSON env v w).2 = .panicked err ↔
        (record env v = .error err
          ∨ ∃ obj, record env v = .ok obj ∧ marshalMap obj = .error err))
      ∧ ((JSON env v w).2 = .returned ↔
          ∃ obj doc, record env v = .ok obj ∧ marshalMap obj = .ok doc)
      ∧ (∀ err, record env v = .error err ↔ v = .other (.error err))
      ∧ ((v = .nil ∨ ∃ s, v = .string s) → (JSON env v w).2 = .returned)
      ∧ (∀ err, Marshal v = .error err → (JSON env v w).2 = .panicked err)
      ∧ (∀ err, (JSON env v w).2 = .panicked err → (JSON env v w).1.stdout = w.stdout) := by
  have hrun := JSON_outcome env v w hfree hwrite
  refine ⟨?_, ?_, record_error_iff env v, ?_, ?_, ?_⟩
  · intro err
    rw [← serialize_error_iff]
    cases hs : serialize env v with
    | error e =>
      rw [hrun, hs]
      constructor
      · intro h; injection h with h1; rw [h1]
      · intro h; injection h with h1; rw [h1]
    | ok doc =>
      rw [hrun, hs]
      constructor
      · intro h; exact Outcome.noConfusion h
      · intro h; exact Except.noConfusion h
  · rw [← serialize_ok_iff]
    cases hs : serialize env v with
    | error e =>
      rw [hrun, hs]
      constructor
      · intro h; exact Outcome.noConfusion h
      · rintro ⟨doc, h⟩; exact Except.noConfusion h
    | ok doc =>
      rw [hrun, hs]
      exact ⟨fun _ => ⟨doc, rfl⟩, fun _ => rfl⟩
  · intro hns
    rcases hns with h1 | ⟨s, h1⟩
    · subst h1; rw [hrun, serialize_nil]
    · subst h1; rw [hrun, serialize_string]
  · intro err herr
    rw [hrun, serialize_of_marshal_error env v err herr]
  · intro err h
    cases hs : serialize env v with
    | error e => rw [hrun, hs]
    | ok doc =>
      rw [hrun, hs] at h
      exact Outcome.noConfusion h

theorem JSON_panics_iff_witness :
    (JSON env0 chanValue world0).2 = .panicked "json: unsupported type: chan int"
      ∧ (JSON env0 chanValue world0).1.stdout = world0.stdout
      ∧ (JSON env0 (.string (utf8 "started")) world0).2 = .returned
      ∧ (JSON env0 bigField world0).2 = .returned :=
  ⟨(JSON_panics_iff env0 chanValue world0 rfl rfl).2.2.2.2.1
      "json: unsupported type: chan int" rfl,
    (JSON_panics_iff env0 chanValue world0 rfl rfl).2.2.2.2.2 "json: unsupported type: chan int"
      ((JSON_panics_iff env0 chanValue world0 rfl rfl).1 "json: unsupported type: chan int"
        |>.mpr (Or.inl rfl)),
    (JSON_panics_iff env0 (.string (utf8 "started")) world0 rfl rfl).2.2.2.1
      (Or.inr ⟨utf8 "started", rfl⟩),
    (JSON_panics_iff env0 bigField world0 rfl rfl).2.1.mpr ⟨_, _, by rfl, by rfl⟩⟩

/-! ## Values serialized as `null`, and numbers -/

/-- Claim C1, the failing input: `JSON([]int(nil))` writes the line `null`, which is not a JSON
object; the whole run is shown. -/
theorem JSON_nilSlice_writes_null :
    JSON env0 nilSlice world0
        = ({ Output := { held := false }, stdout := [.line .null],
             events := [.lock, .caller 1, .write, .unlock] }, .returned)
      ∧ Json.isObject .null = false :=
  ⟨by rfl, rfl⟩

/-- Claim C3, the failing input: for `map[string]int(nil)`, whose serialization is `null` and
not an object, the line written is `null` and not the record with the fields `File` and
`Item`. -/
theorem JSON_nilMap_has_no_Item :
    (JSON env0 nilMap world0).1.stdout = [.line .null]
      ∧ Marshal nilMap = .ok .null
      ∧ Json.null ≠ .obj [("File", .str "main.go:12"), ("Item", .null)] :=
  ⟨by rfl, rfl, fun h => Json.noConfusion h⟩

/-- Claim C2, the failing input: for `struct{ N int64 }{9007199254740993}`, whose
serialization is the object with the field `N = 9007199254740993`, the record written carries
`9007199254740992` under `N`, which is not the value of the input. -/
theorem JSON_object_value_rounded :
    (JSON env0 bigField world0).1.stdout
        = [.line (.obj [("File", .str "main.go:12"), ("N", .num 9007199254740992)])]
      ∧ Marshal bigField = .ok (.obj [("N", .num 9007199254740993)])
      ∧ Json.num 9007199254740992 ≠ Json.num 9007199254740993 := by
  refine ⟨by rfl, rfl, ?_⟩
  intro h
  injection h with h1
  exact absurd h1 (by decide)

/-! ## `Recover` -/

/-- Claim C8: when `recover()` returns nil (no panic is in flight), `Recover` returns and the
state is the one before the call: nothing written, `Output` untouched, no exit. -/
theorem Recover_without_panic (env : Env) (w : World) :
    Recover env .nil w = (w, .returned) :=
  rfl

/-- Claim C7, the failing input: after `panic(make(chan int))`, with `Output` free and a
working standard output, `Recover` takes and releases `Output`, exits with status 1 and has
written no line at all. -/
theorem Recover_unserializable_writes_nothing :
    Recover env0 chanValue world0
        = ({ Output := { held := false }, stdout := [], events := [.lock, .unlock, .exit 1] },
           .exited 1)
      ∧ chanValue ≠ .nil
      ∧ ¬ ∃ line, (Recover env0 chanValue world0).1.stdout = world0.stdout ++ [line] := by
  refine ⟨by rfl, fun h => Value.noConfusion h, ?_⟩
  rintro ⟨line, h⟩
  have h0 : (Recover env0 chanValue world0).1.stdout = [] := by rfl
  rw [h0] at h
  simp [world0] at h

/-! ## The mutex `Output` -/

/-- Claim C10: if `Output` is free before the call, then on every path of `JSON(v)` (return,
panic on a serialization failure, panic on a write failure) the primitives run in the order
`Lock`, `runtime.Caller`, at most one `Write`, `Unlock`; standard output grows by exactly the
chunks of those writes; and `Output` is free again at the end. `Recover`, for a recovered value
other than nil, runs `Lock`, at most one `Write`, `Unlock`, `os.Exit(1)`, and `Output` is free
when the process exits. In both, every write happens while `Output` is held. -/
theorem Output_discipline (env : Env) (v r : Value) (w : World) (hfree : w.Output.held = false) :
    (∃ ws, (JSON env v w).1.events = w.events ++ ([.lock, .caller 1] ++ ws ++ [.unlock])
        ∧ (ws = [] ∨ ws = [.write])
        ∧ (JSON env v w).1.stdout.length = w.stdout.length + ws.length
        ∧ writesHeld false ([.lock, .caller 1] ++ ws ++ [.unlock]) = true
        ∧ (JSON env v w).1.Output.held = false
        ∧ ((JSON env v w).2 = .returned ∨ ∃ err, (JSON env v w).2 = .panicked err))
      ∧ (r ≠ .nil →
          ∃ ws, (Recover env r w).1.events = w.events ++ ([.lock] ++ ws ++ [.unlock, .exit 1])
            ∧ (ws = [] ∨ ws = [.write])
            ∧ (Recover env r w).1.stdout.length = w.stdout.length + ws.length
            ∧ writesHeld false ([.lock] ++ ws ++ [.unlock, .exit 1]) = true
            ∧ (Recover env r w).1.Output.held = false
            ∧ (Recover env r w).2 = .exited 1) := by
  constructor
  · rw [JSON_run env v w hfree]
    cases typeSwitch v (newObj env.frames[1]?) with
    | error err => exact ⟨[], by simp [writesHeld]⟩
    | ok obj =>
      dsimp only
      cases marshalMap obj with
      | error err => exact ⟨[], by simp [writesHeld]⟩
      | ok doc =>
        cases env.writeErr with
        | none => exact ⟨[.write], by simp [writesHeld]⟩
        | some ne => exact ⟨[.write], by simp [writesHeld]⟩
  · intro hr
    rw [Recover_run env r w hfree hr]
    cases marshalStruct (recoverStruct env r) with
    | error err => exact ⟨[], by simp [writesHeld]⟩
    | ok doc =>
      cases env.writeErr with
      | none => exact ⟨[.write], by simp [writesHeld]⟩
      | some ne => exact ⟨[.write], by simp [writesHeld]⟩

theorem Output_discipline_witness :
    (∃ ws, (JSON env0 chanValue world0).1.events
          = world0.events ++ ([.lock, .caller 1] ++ ws ++ [.unlock])
        ∧ (ws = [] ∨ ws = [.write])
        ∧ (JSON env0 chanValue world0).1.stdout.length = world0.stdout.length + ws.length
        ∧ writesHeld false ([.lock, .caller 1] ++ ws ++ [.unlock]) = true
        ∧ (JSON env0 chanValue world0).1.Output.held = false
        ∧ ((JSON env0 chanValue world0).2 = .returned
            ∨ ∃ err, (JSON env0 chanValue world0).2 = .panicked err))
      ∧ (Value.string (utf8 "boom") ≠ .nil →
          ∃ ws, (Recover env0 (.string (utf8 "boom")) world0).1.events
              = world0.events ++ ([.lock] ++ ws ++ [.unlock, .exit 1])
            ∧ (ws = [] ∨ ws = [.write])
            ∧ (Recover env0 (.string (utf8 "boom")) world0).1.stdout.length
              = world0.stdout.length + ws.length
            ∧ writesHeld false ([.lock] ++ ws ++ [.unlock, .exit 1]) = true
            ∧ (Recover env0 (.string (utf8 "boom")) world0).1.Output.held = false
            ∧ (Recover env0 (.string (utf8 "boom")) world0).2 = .exited 1) :=
  Output_discipline env0 chanValue (.string (utf8 "boom")) world0 rfl

/-! ## Further properties of `JSON` and `Recover` -/

/-- Whenever `JSON(v)` returns (with `Output` free and a working standard output), it has
written exactly one line, and that line is a JSON object, unless `v` is a value of the default
case of the type switch that `json.Marshal` encodes as `null`. -/
theorem JSON_writes_one_object (env : Env) (v : Value) (w : World)
    (hfree : w.Output.held = false) (hwrite : env.writeErr = none)
    (hret : (JSON env v w).2 = .returned) (hnull : v ≠ .other (.ok .null)) :
    ∃ fs, (JSON env v w).1.stdout = w.stdout ++ [.line (.obj fs)] := by
  have hrun := JSON_outcome env v w hfree hwrite
  cases hs : serialize env v with
  | error e =>
    rw [hrun, hs] at hret
    exact Outcome.noConfusion hret
  | ok doc =>
    obtain ⟨fs, hfs⟩ := serialize_isObject env v doc hnull hs
    exact ⟨fs, by rw [hrun, hs, hfs]⟩

theorem JSON_writes_one_object_witness :
    ∃ fs, (JSON env0 (.other (.ok (.arr [.num 1, .num 2]))) world0).1.stdout
        = world0.stdout ++ [.line (.obj fs)] :=
  JSON_writes_one_object env0 (.other (.ok (.arr [.num 1, .num 2]))) world0 rfl rfl (by rfl)
    (fun h => by injection h with h1; injection h1 with h2; exact Json.noConfusion h2)

/-- A value that is not nil, not a string and not an error, and whose serialization `b` is a
boolean, a number, a string or an array, makes `JSON` write one line, the object with exactly
the fields `File` (the caller location) and `Item = b`. -/
theorem JSON_item_record (env : Env) (w : World) (file : Bytes) (line : Int) (b : Json)
    (hfree : w.Output.held = false) (hwrite : env.writeErr = none)
    (hcaller : env.frames[1]? = some (file, line))
    (hb : b.isObject = false) (hnull : b ≠ .null) :
    (JSON env (.other (.ok b)) w).1.stdout
        = w.stdout ++ [.line (.obj [("File", .str (jsonString (file ++ utf8 ":" ++ Itoa line))),
            ("Item", b)])]
      ∧ (JSON env (.other (.ok b)) w).2 = .returned := by
  rw [JSON_run env _ w hfree]
  cases b with
  | null => exact absurd rfl hnull
  | obj fields => simp [Json.isObject] at hb
  | bool x =>
    simp [hcaller, newObj, typeSwitch, Unmarshal, setKey, keyLess_Item_File, marshalMap,
      encodeFields, Any.marshal, Marshal, hwrite]
  | num x =>
    simp [hcaller, newObj, typeSwitch, Unmarshal, setKey, keyLess_Item_File, marshalMap,
      encodeFields, Any.marshal, Marshal, hwrite]
  | str x =>
    simp [hcaller, newObj, typeSwitch, Unmarshal, setKey, keyLess_Item_File, marshalMap,
      encodeFields, Any.marshal, Marshal, hwrite]
  | arr x =>
    simp [hcaller, newObj, typeSwitch, Unmarshal, setKey, keyLess_Item_File, marshalMap,
      encodeFields, Any.marshal, Marshal, hwrite]

theorem JSON_item_record_witness :
    (JSON env0 (.other (.ok (.num 9007199254740993))) world0).1.stdout
        = world0.stdout ++ [.line (.obj [("File", .str "main.go:12"),
            ("Item", .num 9007199254740993)])]
      ∧ (JSON env0 (.other (.ok (.num 9007199254740993))) world0).2 = .returned :=
  JSON_item_record env0 world0 (utf8 "main.go") 12 (.num 9007199254740993) rfl rfl rfl rfl
    (fun h => Json.noConfusion h)

/-- A value of the default case of the type switch that `json.Marshal` encodes as `null` (a nil
slice, a nil map, a nil pointer) makes `JSON` write the line `null`: no `File`, no `Item`. -/
theorem JSON_null_line (env : Env) (w : World)
    (hfree : w.Output.held = false) (hwrite : env.writeErr = none) :
    (JSON env (.other (.ok .null)) w).1.stdout = w.stdout ++ [.line .null]
      ∧ (JSON env (.other (.ok .null)) w).2 = .returned := by
  rw [JSON_run env _ w hfree]
  simp [typeSwitch, Unmarshal, marshalMap, hwrite]

theorem JSON_null_line_witness :
    (JSON env0 (.other (.ok .null)) world0).1.stdout = world0.stdout ++ [.line .null]
      ∧ (JSON env0 (.other (.ok .null)) world0).2 = .returned :=
  JSON_null_line env0 world0 rfl rfl

theorem generic_num (x y : ℚ) (ht : float64Trip x = some y) :
    generic (.num x) = (.float y, false) := by
  show (match float64Trip x with
    | some y => (Generic.float y, false)
    | none => (Generic.inf (decide (x < 0)), true)) = _
  rw [ht]

theorem generic_exactScalar (v : Json) (hv : v.exactScalar = true) :
    (generic v).2 = false ∧ (generic v).1.encode = .ok v := by
  cases v with
  | null => exact ⟨rfl, rfl⟩
  | bool b => exact ⟨rfl, rfl⟩
  | num x =>
    simp only [Json.exactScalar, Bool.and_eq_true, decide_eq_true_eq] at hv
    rw [generic_num x x (float64Trip_exact x hv.1 hv.2)]
    exact ⟨rfl, rfl⟩
  | str s => exact ⟨rfl, rfl⟩
  | arr items => exact absurd hv (by simp [Json.exactScalar])
  | obj fields => exact absurd hv (by simp [Json.exactScalar])

/-- For every value that is not nil, not a string and not an error, whose serialization is an
object with field map `m` (distinct keys) with scalar fields that are `null`, booleans, strings
or integers of magnitude below `2^53`, and for every caller location, `JSON` writes one line,
an object whose keys are distinct and are exactly `File` and the keys of `m`. Every key of `m`
carries `m`'s value, so a key `File` of `m` replaces the caller location; when `m` has no key
`File`, `File` is the caller location. -/
theorem JSON_object_record (env : Env) (w : World) (file : Bytes) (line : Int)
    (m : List (String × Json)) (hfree : w.Output.held = false) (hwrite : env.writeErr = none)
    (hcaller : env.frames[1]? = some (file, line)) (hmap : (keys m).Nodup)
    (hscalar : ∀ p ∈ m, p.2.exactScalar = true) :
    ∃ fs, (JSON env (.other (.ok (.obj m))) w).1.stdout = w.stdout ++ [.line (.obj fs)]
      ∧ (JSON env (.other (.ok (.obj m))) w).2 = .returned
      ∧ (keys fs).Nodup
      ∧ (∀ k, k ∈ keys fs ↔ k = "File" ∨ k ∈ keys m)
      ∧ (∀ k v, (k, v) ∈ m → getKey fs k = some v)
      ∧ ("File" ∉ keys m →
          getKey fs "File" = some (.str (jsonString (file ++ utf8 ":" ++ Itoa line)))) := by
  have hflag := mergeFields_flag m (newObj (some (file, line)))
    (fun p hp => (generic_exactScalar p.2 (hscalar p hp)).1)
  have henc := encodeFields_ok _ (encodes_mergeFields m _ (encodes_newObj (some (file, line)))
    (fun p hp => ⟨p.2, (generic_exactScalar p.2 (hscalar p hp)).2⟩))
  have hsorted := sortedKeys_mergeFields m _ (sortedKeys_newObj (some (file, line)))
  refine ⟨(mergeFields (newObj (some (file, line))) m).1.map fun p => (p.1, p.2.doc),
    ?_, ?_, ?_, ?_, ?_, ?_⟩
  · rw [JSON_run env _ w hfree]
    simp [hcaller, typeSwitch, Unmarshal, hflag, marshalMap, henc, hwrite]
  · rw [JSON_run env _ w hfree]
    simp [hcaller, typeSwitch, Unmarshal, hflag, marshalMap, henc, hwrite]
  · rw [keys_map]
    exact nodup_of_sortedKeys _ hsorted
  · intro k
    rw [keys_map, keys_mergeFields, newObj_some]
    simp [keys]
  · intro k v hkv
    rw [getKey_map, getKey_mergeFields_of_mem m _ k v hmap hkv]
    simp [Any.doc, Any.marshal, (generic_exactScalar v (hscalar (k, v) hkv)).2]
  · intro hFile
    rw [getKey_map, getKey_mergeFields_of_not_mem m _ "File" hFile, newObj_some]
    simp [getKey, Any.doc, Any.marshal]

theorem JSON_object_record_witness :
    ∃ fs, (JSON env0 (.other (.ok (.obj [("User", .str "ann"), ("File", .str "custom")]))) world0).1.stdout
        = world0.stdout ++ [.line (.obj fs)]
      ∧ (JSON env0 (.other (.ok (.obj [("User", .str "ann"), ("File", .str "custom")]))) world0).2
        = .returned
      ∧ (keys fs).Nodup
      ∧ (∀ k, k ∈ keys fs ↔ k = "File" ∨ k ∈ keys [("User", Json.str "ann"), ("File", Json.str "custom")])
      ∧ (∀ k v, (k, v) ∈ [("User", Json.str "ann"), ("File", Json.str "custom")] →
          getKey fs k = some v)
      ∧ ("File" ∉ keys [("User", Json.str "ann"), ("File", Json.str "custom")] →
          getKey fs "File" = some (.str (jsonString (utf8 "main.go" ++ utf8 ":" ++ Itoa 12)))) :=
  JSON_object_record env0 world0 (utf8 "main.go") 12 [("User", .str "ann"), ("File", .str "custom")]
    rfl rfl rfl (by decide) (by simp [Json.exactScalar])

/-- With `Output` free and a working standard output, for every recovered value `r` other than
nil that `json.Marshal` encodes as `j`, `Recover` writes exactly one line and ends the process
with exit status 1. The line is the object with the fields `Message` (the bytes of `Error()` as
`encoding/json` writes a Go string), `Error = j` and `Stack` when `r` is an error value, and the
object with the fields `Error = j` and `Stack` when it is not; no field `File` in either. -/
theorem Recover_record (env : Env) (w : World) (r : Value) (j : Json)
    (hfree : w.Output.held = false) (hwrite : env.writeErr = none) (hr : r ≠ .nil)
    (hj : Marshal r = .ok j) :
    (Recover env r w).2 = .exited 1
      ∧ (∀ message m, r = .error message m →
          (Recover env r w).1.stdout = w.stdout ++ [.line (.obj
            [("Message", .str (jsonString message)), ("Error", j),
              ("Stack", .str (jsonString env.stack))])])
      ∧ ((∀ message m, r ≠ .error message m) →
          (Recover env r w).1.stdout = w.stdout ++ [.line (.obj
            [("Error", j), ("Stack", .str (jsonString env.stack))])]) := by
  rw [Recover_run env r w hfree hr]
  cases r with
  | nil => exact absurd rfl hr
  | string s =>
    simp only [Marshal] at hj
    simp [recoverStruct, marshalStruct, encodeFields, Any.marshal, Marshal, hwrite]
    injection hj
  | error message m =>
    simp only [Marshal] at hj
    subst hj
    simp [recoverStruct, marshalStruct, encodeFields, Any.marshal, Marshal, hwrite]
  | other m =>
    simp only [Marshal] at hj
    subst hj
    simp [recoverStruct, marshalStruct, encodeFields, Any.marshal, Marshal, hwrite]

theorem Recover_record_witness :
    (Recover env0 (.error (utf8 "boom") (.ok (.obj []))) world0).2 = .exited 1
      ∧ (∀ message m, Value.error (utf8 "boom") (.ok (.obj [])) = .error message m →
          (Recover env0 (.error (utf8 "boom") (.ok (.obj []))) world0).1.stdout
            = world0.stdout ++ [.line (.obj
              [("Message", .str (jsonString message)), ("Error", .obj []),
                ("Stack", .str (jsonString env0.stack))])])
      ∧ ((∀ message m, Value.error (utf8 "boom") (.ok (.obj [])) ≠ .error message m) →
          (Recover env0 (.error (utf8 "boom") (.ok (.obj []))) world0).1.stdout
            = world0.stdout ++ [.line (.obj
              [("Error", .obj []), ("Stack", .str (jsonString env0.stack))])]) :=
  Recover_record env0 world0 (.error (utf8 "boom") (.ok (.obj []))) (.obj []) rfl rfl
    (fun h => Value.noConfusion h) rfl

set_option exponentiation.threshold 4000 in
set_option maxRecDepth 8000 in
/-- The decoding of a JSON number into a `float64` and its printing by `Encode`, on examples:
small integers and short decimals come back as they are, `2^53 + 1` is a tie and goes to the
even neighbour `2^53`, `2^53 + 3` goes to `2^53 + 4`, a decimal with more digits than a
`float64` holds comes back shortened, a number below half the smallest subnormal becomes `0`,
the largest `float64` comes back as it is and `10^309` is out of range. -/
theorem float64Trip_examples :
    float64Trip 404 = some 404
      ∧ float64Trip (mkRat 3 2) = some (mkRat 3 2)
      ∧ float64Trip (mkRat 1 10) = some (mkRat 1 10)
      ∧ float64Trip (mkRat (-1) 3) = some (mkRat (-3333333333333333) 10000000000000000)
      ∧ float64Trip 9007199254740993 = some 9007199254740992
      ∧ float64Trip 9007199254740995 = some 9007199254740996
      ∧ float64Trip (mkRat 10000000000000000000001 100000000000000000000000)
          = some (mkRat 1 10)
      ∧ float64Trip (mkRat 1 (10 ^ 400)) = some 0
      ∧ float64Trip (mkRat 5 (10 ^ 324)) = some (mkRat 5 (10 ^ 324))
      ∧ float64Trip 179769313486231570000000000000000000000000000000000000000000000000000000000000000000000000000000000000000000000000000000000000000000000000000000000000000000000000000000000000000000000000000000000000000000000000000000000000000000000000000000000000000000000000000000000000000000000000000000000000000000000000000
          = some 179769313486231570000000000000000000000000000000000000000000000000000000000000000000000000000000000000000000000000000000000000000000000000000000000000000000000000000000000000000000000000000000000000000000000000000000000000000000000000000000000000000000000000000000000000000000000000000000000000000000000000000
      ∧ float64Trip (10 ^ 309) = none := by
  refine ⟨by rfl, by rfl, by rfl, by rfl, by rfl, by rfl, by rfl, by rfl, by rfl, by decide,
    by rfl⟩

set_option exponentiation.threshold 4000 in
set_option maxRecDepth 8000 in
/-- For `map[string]*big.Int` with the entry `n = 10^309`, which `json.Marshal` encodes,
`json.Unmarshal` leaves an infinity in `obj`, so the encoding on line 48 fails: `JSON` panics
on line 49 and writes nothing. -/
theorem JSON_out_of_range_panics :
    JSON env0 hugeField world0
      = ({ Output := { held := false }, stdout := [],
           events := [.lock, .caller 1, .unlock] },
         .panicked "json: unsupported value: +Inf") := by
  rfl

end Log
